import Mathlib

/-!
MicroXLSWriter: record encoding.

A shallow embedding of `microxlswriter.c` / `microxlswriter.h`.

* Bytes are natural numbers below 256; a buffer is a `List Nat`.
* The target is little-endian, with an 8-byte `double`: `memcpy` from a
  `uint16_t` or a `double` object copies its bytes low byte first. A `double`
  is carried as its 64-bit pattern, which is all `memcpy` looks at.
* The write callback is stateful. Its effect is made explicit as a function on
  a `World` (everything the callback can reach), and it receives the writer's
  `ptr` as its first argument, as in the source.
* The early `return` inside the two macros is modelled by passing the rest of
  the function body as a continuation.
-/

namespace MicroXLS

/-- Result code returned from the writer functions (the C enum, by value). -/
abbrev MicroXLSWriterResult := Int

/-- Returned if an operation completes successfully. -/
abbrev MXW_SUCCESS : MicroXLSWriterResult := 0

/-- Returned if an I/O error occurred while writing the spreadsheet. -/
abbrev MXW_IO_ERROR : MicroXLSWriterResult := -1

/-- Returned when an invalid parameter was supplied to the function. -/
abbrev MXW_INVALID_PARAM : MicroXLSWriterResult := -2

/-- Type of the `writeFunc` callback: `ptr`, then the buffer of `len` bytes
starting at `data`, acting on the world and giving back a result code. -/
abbrev WriteFunc (World Ptr : Type) :=
  Ptr → List Nat → World → MicroXLSWriterResult × World

/-- The writer structure: a callback, which may be a null function pointer,
and the `ptr` value handed back to it. -/
structure MicroXLSWriter (World Ptr : Type) where
  writeFunc : Option (WriteFunc World Ptr)
  ptr : Ptr

/-- Bytes of a `uint8_t` object holding the value `v` converted to that type. -/
def bytesOfU8 (v : Nat) : List Nat := [v % 256]

/-- Bytes of a `uint16_t` object holding `v` converted to that type. -/
def bytesOfU16 (v : Nat) : List Nat := [v % 65536 % 256, v % 65536 / 256]

/-- Bytes of a `double` object whose 64-bit pattern is `bits`. -/
def bytesOfDouble (bits : Nat) : List Nat :=
  [ bits % 2 ^ 64 % 256,
    bits % 2 ^ 64 / 2 ^ 8 % 256,
    bits % 2 ^ 64 / 2 ^ 16 % 256,
    bits % 2 ^ 64 / 2 ^ 24 % 256,
    bits % 2 ^ 64 / 2 ^ 32 % 256,
    bits % 2 ^ 64 / 2 ^ 40 % 256,
    bits % 2 ^ 64 / 2 ^ 48 % 256,
    bits % 2 ^ 64 / 2 ^ 56 ]

/-- The call `memcpy(&dst[off], src, n)`: `n` bytes of `src` overwrite `dst` from `off`. -/
def memcpy (dst : List Nat) (off : Nat) (src : List Nat) (n : Nat) : List Nat :=
  dst.take off ++ src.take n ++ dst.drop (off + n)

/-- Macro used for ensuring the supplied writer is valid before calling it:
returns `MXW_INVALID_PARAM` when `w` or `w->writeFunc` is null, and otherwise
goes on with the body `k`. -/
def MXW_CHECKWRITER {World Ptr : Type} (w : Option (MicroXLSWriter World Ptr))
    (k : WriteFunc World Ptr → Ptr → World → MicroXLSWriterResult × World)
    (s : World) : MicroXLSWriterResult × World :=
  match w with
  | none => (MXW_INVALID_PARAM, s)
  | some w0 =>
    match w0.writeFunc with
    | none => (MXW_INVALID_PARAM, s)
    | some wf => k wf w0.ptr s

/-- Macro used for calling the write callback and returning an error code if
necessary: the callback gets `ptr` and the first `recLen` bytes at `buf`; a
result other than `MXW_SUCCESS` is returned at once, otherwise `k` goes on. -/
def MXW_WRITE {World Ptr : Type} (wf : WriteFunc World Ptr) (p : Ptr)
    (buf : List Nat) (recLen : Nat)
    (k : World → MicroXLSWriterResult × World)
    (s : World) : MicroXLSWriterResult × World :=
  let r := wf p (buf.take recLen) s
  if r.1 ≠ MXW_SUCCESS then (r.1, r.2) else k r.2

/-- Begins writing a new XLS file: writes out a BIFF2 BOF record. -/
def MicroXLS_Begin {World Ptr : Type} (w : Option (MicroXLSWriter World Ptr)) :
    World → MicroXLSWriterResult × World :=
  MXW_CHECKWRITER w fun wf p =>
    let bofRec : List Nat := [
      0x09, 0x00,
      0x04, 0x00,
      0x02, 0x00,
      0x10, 0x00 ]
    MXW_WRITE wf p bofRec bofRec.length fun s => (MXW_SUCCESS, s)

/-- Adds a number cell to the spreadsheet: writes out a BIFF2 NUMBER record.
The value `val` is the bit pattern of the `double`. -/
def MicroXLS_AddNumberCell {World Ptr : Type} (w : Option (MicroXLSWriter World Ptr))
    (row col val : Nat) : World → MicroXLSWriterResult × World :=
  MXW_CHECKWRITER w fun wf p =>
    let numRec : List Nat := [
      0x03, 0x00,
      0x0F, 0x00,
      0x00, 0x00,
      0x00, 0x00,
      0x00, 0x00, 0x00,
      0x00, 0x00,
      0x00, 0x00,
      0x00, 0x00,
      0x00, 0x00 ]
    let numRec := memcpy numRec 4 (bytesOfU16 row) 2
    let numRec := memcpy numRec 6 (bytesOfU16 col) 2
    let numRec := memcpy numRec 11 (bytesOfDouble val) 8
    MXW_WRITE wf p numRec numRec.length fun s => (MXW_SUCCESS, s)

/-- Adds a label cell to the spreadsheet: writes out a BIFF2 LABEL record, the
fixed part first and the label data after it. Here `label` is the memory from
the pointer `label` on, and `len` is converted to `uint8_t` on entry. -/
def MicroXLS_AddLabelCell {World Ptr : Type} (w : Option (MicroXLSWriter World Ptr))
    (row col : Nat) (label : List Nat) (len : Nat) :
    World → MicroXLSWriterResult × World :=
  MXW_CHECKWRITER w fun wf p =>
    let len := len % 256
    let labelRec : List Nat := [
      0x04, 0x00,
      0x00, 0x00,
      0x00, 0x00,
      0x00, 0x00,
      0x00, 0x00, 0x00,
      0x00 ]
    let recLen := (len + labelRec.length - 4) % 65536
    let labelRec := memcpy labelRec 2 (bytesOfU16 recLen) 2
    let labelRec := memcpy labelRec 4 (bytesOfU16 row) 2
    let labelRec := memcpy labelRec 6 (bytesOfU16 col) 2
    let labelRec := memcpy labelRec 11 (bytesOfU8 len) 1
    MXW_WRITE wf p labelRec labelRec.length
      (MXW_WRITE wf p label len fun s => (MXW_SUCCESS, s))

/-- Sets the width of the column at the specified index: writes out a BIFF2
COLWIDTH record. -/
def MicroXLS_SetColumnWidth {World Ptr : Type} (w : Option (MicroXLSWriter World Ptr))
    (col width : Nat) : World → MicroXLSWriterResult × World :=
  MXW_CHECKWRITER w fun wf p =>
    let colWidthRec : List Nat := [
      0x24, 0x00,
      0x04, 0x00,
      0x00,
      0x00,
      0x00, 0x00 ]
    let colWidthRec := colWidthRec.set 4 (col % 256)
    let colWidthRec := colWidthRec.set 5 (col % 256)
    let colWidthRec := memcpy colWidthRec 6 (bytesOfU16 width) 2
    MXW_WRITE wf p colWidthRec colWidthRec.length fun s => (MXW_SUCCESS, s)

/-- Finishes writing the XLS file: writes out a BIFF2 EOF record. -/
def MicroXLS_Finish {World Ptr : Type} (w : Option (MicroXLSWriter World Ptr)) :
    World → MicroXLSWriterResult × World :=
  MXW_CHECKWRITER w fun wf p =>
    let eofRec : List Nat := [
      0x0A, 0x00,
      0x00, 0x00 ]
    MXW_WRITE wf p eofRec eofRec.length fun s => (MXW_SUCCESS, s)

/-! ## Observing the sink

The library itself keeps no record of what it wrote. To speak about the bytes
a call emits, the callback is wrapped so that every invocation is appended to
a log carried next to the world. -/

/-- One invocation of the write callback: the `ptr` and buffer it received and
the result code it returned. -/
structure WriteEvent (Ptr : Type) where
  ptr : Ptr
  data : List Nat
  result : MicroXLSWriterResult
  deriving DecidableEq, Repr

/-- The callback `f`, with each invocation logged. -/
def traced {World Ptr : Type} (f : WriteFunc World Ptr) :
    WriteFunc (World × List (WriteEvent Ptr)) Ptr :=
  fun p data st =>
    let r := f p data st.1
    (r.1, (r.2, st.2 ++ [⟨p, data, r.1⟩]))

/-- A valid writer over the callback `f` with context `p`, its writes logged. -/
def tracedWriter {World Ptr : Type} (f : WriteFunc World Ptr) (p : Ptr) :
    Option (MicroXLSWriter (World × List (WriteEvent Ptr)) Ptr) :=
  some ⟨some (traced f), p⟩

/-- The byte stream of a log: the buffers of its events, in order. -/
def bytesOf {Ptr : Type} (tr : List (WriteEvent Ptr)) : List Nat :=
  (tr.map fun e => e.data).flatten

/-- A sink that accepts every write. -/
def AcceptsAll {World Ptr : Type} (f : WriteFunc World Ptr) : Prop :=
  ∀ p data s, (f p data s).1 = MXW_SUCCESS

/-- A file-like sink: the world is the content written so far, every write
appends its whole buffer and reports success. -/
def appendSink : WriteFunc (List Nat) Unit :=
  fun _ data s => (MXW_SUCCESS, s ++ data)

/-- A sink that refuses every write with the result code `code` and keeps
nothing. -/
def rejectSink (code : MicroXLSWriterResult) : WriteFunc (List Nat) Unit :=
  fun _ _ s => (code, s)

/-- Little-endian 16-bit field of `bs` at offset `off`. -/
def le16At (bs : List Nat) (off : Nat) : Nat :=
  bs.getD off 0 + 256 * bs.getD (off + 1) 0

/-- Little-endian 64-bit field of `bs` at offset `off`. -/
def le64At (bs : List Nat) (off : Nat) : Nat :=
  bs.getD off 0 + 2 ^ 8 * bs.getD (off + 1) 0 + 2 ^ 16 * bs.getD (off + 2) 0
    + 2 ^ 24 * bs.getD (off + 3) 0 + 2 ^ 32 * bs.getD (off + 4) 0
    + 2 ^ 40 * bs.getD (off + 5) 0 + 2 ^ 48 * bs.getD (off + 6) 0
    + 2 ^ 56 * bs.getD (off + 7) 0

/-- An operation of the library with its arguments applied, all but the writer. -/
abbrev Op (World Ptr : Type) :=
  Option (MicroXLSWriter World Ptr) → World → MicroXLSWriterResult × World

/-- The events a call adds to the log: `op` is run on a logged valid writer
over `f` with context `p`, from world `s` and log `tr`. -/
def issued {World Ptr : Type} (f : WriteFunc World Ptr) (p : Ptr) (s : World)
    (tr : List (WriteEvent Ptr)) (op : Op (World × List (WriteEvent Ptr)) Ptr) :
    List (WriteEvent Ptr) :=
  (op (tracedWriter f p) (s, tr)).2.2.drop tr.length

/-- The bytes a call hands to the sink, in order. -/
def emitted {World Ptr : Type} (f : WriteFunc World Ptr) (p : Ptr) (s : World)
    (tr : List (WriteEvent Ptr)) (op : Op (World × List (WriteEvent Ptr)) Ptr) :
    List Nat :=
  bytesOf (issued f p s tr op)

/-- The result code a call returns on the logged valid writer. -/
def returned {World Ptr : Type} (f : WriteFunc World Ptr) (p : Ptr) (s : World)
    (tr : List (WriteEvent Ptr)) (op : Op (World × List (WriteEvent Ptr)) Ptr) :
    MicroXLSWriterResult :=
  (op (tracedWriter f p) (s, tr)).1

/-- A call of one of the five operations, with its arguments. -/
inductive Call where
  | Begin
  | SetColumnWidth (col width : Nat)
  | AddNumberCell (row col val : Nat)
  | AddLabelCell (row col : Nat) (label : List Nat) (len : Nat)
  | Finish
  deriving DecidableEq, Repr

/-- The library function a call stands for. -/
def Call.run {World Ptr : Type} (c : Call) : Op World Ptr :=
  fun w =>
    match c with
    | .Begin => MicroXLS_Begin w
    | .SetColumnWidth col width => MicroXLS_SetColumnWidth w col width
    | .AddNumberCell row col val => MicroXLS_AddNumberCell w row col val
    | .AddLabelCell row col label len => MicroXLS_AddLabelCell w row col label len
    | .Finish => MicroXLS_Finish w

/-- The arguments of a call fit their C types (`uint8_t`, `uint16_t`, a 64-bit
`double`), and a label buffer holds the `len` bytes the call reads from it. -/
def Call.InRange : Call → Prop
  | .Begin => True
  | .SetColumnWidth col width => col < 256 ∧ width < 65536
  | .AddNumberCell row col val => row < 65536 ∧ col < 65536 ∧ val < 2 ^ 64
  | .AddLabelCell row col label len =>
      row < 65536 ∧ col < 65536 ∧ len < 256 ∧ len ≤ label.length
  | .Finish => True

instance Call.decidableInRange (c : Call) : Decidable c.InRange := by
  cases c <;> unfold Call.InRange <;> infer_instance

/-- Reading a number record back by the record table: row at offset 4, column
at offset 6, value at offset 11. -/
def decodeNumberCell (bs : List Nat) : Nat × Nat × Nat :=
  (le16At bs 4, le16At bs 6, le64At bs 11)

/-- The fixed part of a label record, as `MicroXLS_AddLabelCell` fills it in. -/
def labelHeader (row col len : Nat) : List Nat :=
  [4, 0] ++ bytesOfU16 ((len % 256 + 12 - 4) % 65536) ++ bytesOfU16 row ++ bytesOfU16 col
    ++ [0, 0, 0] ++ bytesOfU8 (len % 256)

/-- The number record, as `MicroXLS_AddNumberCell` fills it in. -/
def numberRecord (row col val : Nat) : List Nat :=
  [3, 0, 15, 0] ++ bytesOfU16 row ++ bytesOfU16 col ++ [0, 0, 0] ++ bytesOfDouble val

/-- The column width record, as `MicroXLS_SetColumnWidth` fills it in. -/
def colWidthRecord (col width : Nat) : List Nat :=
  [36, 0, 4, 0, col % 256, col % 256] ++ bytesOfU16 width

/-- A sink that counts the writes it has seen: write number `n` (counted from
0) is refused with `code` and not stored, every other write is appended. -/
def failNthSink (n : Nat) (code : MicroXLSWriterResult) : WriteFunc (Nat × List Nat) Unit :=
  fun _ data s =>
    if s.1 = n then (code, (s.1 + 1, s.2)) else (MXW_SUCCESS, (s.1 + 1, s.2 ++ data))

/-- The result code of the first event of a log that is not `MXW_SUCCESS`, and
`MXW_SUCCESS` when there is none. -/
def firstFailure {Ptr : Type} : List (WriteEvent Ptr) → MicroXLSWriterResult
  | [] => MXW_SUCCESS
  | e :: es => if e.result ≠ MXW_SUCCESS then e.result else firstFailure es

/-- The first write of a label cell call with every field filled in: tag,
length `len + 8`, row, column, three attribute bytes and the label length. -/
def labelFixedPart (row col len : Nat) : List Nat :=
  [4, 0, (len + 8) % 256, (len + 8) / 256, row % 256, row / 256, col % 256, col / 256,
    0, 0, 0, len]

/-- The write callback of the test program: it reports success only when
`fwrite(data, len, 1, f)` returns 1. The C library function is passed in as
`fwrite`: it takes the buffer, the item size, the item count and the stream,
and returns the number of items written. -/
def WriteToFile {World Ptr : Type}
    (fwrite : List Nat → Nat → Nat → Ptr → World → Nat × World) : WriteFunc World Ptr :=
  fun ptr data st =>
    let result := fwrite data data.length 1 ptr st
    if result.1 = 1 then (MXW_SUCCESS, result.2) else (MXW_IO_ERROR, result.2)

/-- An `fwrite` on a stream with unlimited room, the world being the content of
the file: with a zero size or count it returns zero and leaves the stream as it
is, as the C standard has it; otherwise it appends all the items. -/
def fwriteAll : List Nat → Nat → Nat → Unit → List Nat → Nat × List Nat :=
  fun data size nmemb _ file =>
    if size = 0 ∨ nmemb = 0 then (0, file) else (nmemb, file ++ data.take (size * nmemb))

/-- A sequence of calls on one writer, made one after the other whatever the
earlier ones returned, as the test program does: the result codes in call
order, and the world at the end. -/
def runCalls {World Ptr : Type} (w : Option (MicroXLSWriter World Ptr)) :
    List Call → World → List MicroXLSWriterResult × World
  | [], s => ([], s)
  | c :: cs, s =>
    let r := c.run w s
    let rest := runCalls w cs r.2
    (r.1 :: rest.1, rest.2)

/-- The record a call emits on its own: the bytes it hands to a file-like sink
that starts empty. -/
def Call.record (c : Call) : List Nat :=
  emitted appendSink () [] [] c.run

/-- The sink `f` placed in a world of two sinks as the first one: it sees and
changes the first component only. -/
def onFst {A B Ptr : Type} (f : WriteFunc A Ptr) : WriteFunc (A × B) Ptr :=
  fun p data st =>
    let r := f p data st.1
    (r.1, (r.2, st.2))

/-- The sink `f` placed in a world of two sinks as the second one. -/
def onSnd {A B Ptr : Type} (f : WriteFunc B Ptr) : WriteFunc (A × B) Ptr :=
  fun p data st =>
    let r := f p data st.2
    (r.1, (st.1, r.2))

/-- A logged valid writer over the first of two independent sinks. -/
def firstWriter {A B Ptr : Type} (g : WriteFunc A Ptr) (p : Ptr) :
    Option (MicroXLSWriter ((A × List (WriteEvent Ptr)) × (B × List (WriteEvent Ptr))) Ptr) :=
  some ⟨some (onFst (traced g)), p⟩

/-- A logged valid writer over the second of two independent sinks. -/
def secondWriter {A B Ptr : Type} (g : WriteFunc B Ptr) (p : Ptr) :
    Option (MicroXLSWriter ((A × List (WriteEvent Ptr)) × (B × List (WriteEvent Ptr))) Ptr) :=
  some ⟨some (onSnd (traced g)), p⟩

/-- Calls on two writers in one program: a step marked `true` is a call on
`w1`, a step marked `false` a call on `w2`. The result codes come back with
the same marks, in program order, next to the world at the end. -/
def runInterleaved {World Ptr : Type} (w1 w2 : Option (MicroXLSWriter World Ptr)) :
    List (Bool × Call) → World → List (Bool × MicroXLSWriterResult) × World
  | [], s => ([], s)
  | step :: steps, s =>
    let r := step.2.run (if step.1 then w1 else w2) s
    let rest := runInterleaved w1 w2 steps r.2
    ((step.1, r.1) :: rest.1, rest.2)

/-- The entries of a marked list that carry the mark `b`, in their order. -/
def selectOf {α : Type} (b : Bool) (xs : List (Bool × α)) : List α :=
  (xs.filter fun x => x.1 == b).map Prod.snd

/-- The calls of the test program's `main`, those on `w1` marked `true` and
those on `w2` marked `false`; the doubles are given by their bit patterns and
the string literals with their terminator. -/
def testProgram : List (Bool × Call) :=
  [ (true, Call.Begin),
    (false, Call.Begin),
    (true, Call.SetColumnWidth 2 (256 * 100)),
    (true, Call.AddNumberCell 0 0 0x40C81CCCCCCCCCCD),
    (true, Call.AddLabelCell 0 1 [84, 101, 115, 116, 105, 110, 103, 0] 7),
    (false, Call.AddNumberCell 5 5 0x40815C0000000000),
    (true, Call.AddLabelCell 0 2
      [84, 101, 115, 116, 105, 110, 103, 32, 109, 117, 99, 104, 32, 108, 111, 110, 103, 101,
        114, 32, 99, 101, 108, 108, 32, 99, 111, 110, 116, 101, 110, 116, 0] 32),
    (true, Call.AddNumberCell 0 255 0x400921FAFC8B007A),
    (true, Call.Finish),
    (false, Call.Finish) ]

/-- The arguments of a call fit their C types and a label is given by exactly
its `len` bytes, so that a call is named by one list of arguments only. -/
def Call.Canonical : Call → Prop
  | .Begin => True
  | .SetColumnWidth col width => col < 256 ∧ width < 65536
  | .AddNumberCell row col val => row < 65536 ∧ col < 65536 ∧ val < 2 ^ 64
  | .AddLabelCell row col label len =>
      row < 65536 ∧ col < 65536 ∧ len < 256 ∧ label.length = len
  | .Finish => True

instance Call.decidableCanonical (c : Call) : Decidable c.Canonical := by
  cases c <;> unfold Call.Canonical <;> infer_instance

/-- The byte stream a sequence of calls leaves on the sink `f`, the log being
empty at the start. -/
def streamOf {World Ptr : Type} (f : WriteFunc World Ptr) (p : Ptr) (s : World)
    (cs : List Call) : List Nat :=
  bytesOf (runCalls (tracedWriter f p) cs (s, [])).2.2

/-- A reader that takes a 2-byte tag and a 2-byte little-endian length, cuts
the record off after that many bytes more, and goes on with the rest, at most
`fuel` times; it stops when fewer than four bytes are left. -/
def splitRecords : Nat → List Nat → List (List Nat)
  | 0, _ => []
  | fuel + 1, bs =>
    if bs.length < 4 then []
    else bs.take (4 + le16At bs 2) :: splitRecords fuel (bs.drop (4 + le16At bs 2))

/-- The reader run to the end of a stream: a stream of `n` bytes has fewer
than `n + 1` records. -/
def readRecords (bs : List Nat) : List (List Nat) :=
  splitRecords bs.length bs

/-- Reading one record back by the record table: the tag names the operation,
the fields at their offsets give the arguments. -/
def decodeRecord (r : List Nat) : Option Call :=
  if le16At r 0 = 0x0009 then some Call.Begin
  else if le16At r 0 = 0x0003 then
    some (Call.AddNumberCell (le16At r 4) (le16At r 6) (le64At r 11))
  else if le16At r 0 = 0x0004 then
    some (Call.AddLabelCell (le16At r 4) (le16At r 6) (r.drop 12) (r.getD 11 0))
  else if le16At r 0 = 0x0024 then some (Call.SetColumnWidth (r.getD 4 0) (le16At r 6))
  else if le16At r 0 = 0x000A then some Call.Finish
  else none

/-! ## How the two macros act on a logged writer -/

theorem checkwriter_traced {World Ptr : Type} (f : WriteFunc World Ptr) (p : Ptr)
    (k : WriteFunc (World × List (WriteEvent Ptr)) Ptr → Ptr →
      World × List (WriteEvent Ptr) → MicroXLSWriterResult × (World × List (WriteEvent Ptr)))
    (st : World × List (WriteEvent Ptr)) :
    MXW_CHECKWRITER (tracedWriter f p) k st = k (traced f) p st := rfl

theorem write_traced {World Ptr : Type} (f : WriteFunc World Ptr) (p : Ptr)
    (buf : List Nat) (n : Nat)
    (k : World × List (WriteEvent Ptr) → MicroXLSWriterResult × (World × List (WriteEvent Ptr)))
    (s : World) (tr : List (WriteEvent Ptr)) :
    MXW_WRITE (traced f) p buf n k (s, tr) =
      if (f p (buf.take n) s).1 ≠ MXW_SUCCESS then
        ((f p (buf.take n) s).1,
          ((f p (buf.take n) s).2, tr ++ [⟨p, buf.take n, (f p (buf.take n) s).1⟩]))
      else
        k ((f p (buf.take n) s).2, tr ++ [⟨p, buf.take n, MXW_SUCCESS⟩]) := by
  unfold MXW_WRITE traced
  by_cases h : (f p (buf.take n) s).1 = MXW_SUCCESS
  · simp [h]
  · simp [h]

theorem write_traced_accept {World Ptr : Type} (f : WriteFunc World Ptr) (hf : AcceptsAll f)
    (p : Ptr) (buf : List Nat) (n : Nat)
    (k : World × List (WriteEvent Ptr) → MicroXLSWriterResult × (World × List (WriteEvent Ptr)))
    (s : World) (tr : List (WriteEvent Ptr)) :
    MXW_WRITE (traced f) p buf n k (s, tr) =
      k ((f p (buf.take n) s).2, tr ++ [⟨p, buf.take n, MXW_SUCCESS⟩]) := by
  rw [write_traced]
  simp [hf p (buf.take n) s]

theorem write_traced_last {World Ptr : Type} (f : WriteFunc World Ptr) (p : Ptr)
    (buf : List Nat) (n : Nat) (s : World) (tr : List (WriteEvent Ptr)) :
    MXW_WRITE (traced f) p buf n (fun st => (MXW_SUCCESS, st)) (s, tr) =
      ((f p (buf.take n) s).1,
        ((f p (buf.take n) s).2, tr ++ [⟨p, buf.take n, (f p (buf.take n) s).1⟩])) := by
  rw [write_traced]
  by_cases h : (f p (buf.take n) s).1 = MXW_SUCCESS
  · simp [h]
  · simp [h]

/-! ## What each operation does on a logged valid writer, for any sink -/

theorem begin_traced {World Ptr : Type} (f : WriteFunc World Ptr)
    (p : Ptr) (s : World) (tr : List (WriteEvent Ptr)) :
    MicroXLS_Begin (tracedWriter f p) (s, tr) =
      ((f p [9, 0, 4, 0, 2, 0, 16, 0] s).1, ((f p [9, 0, 4, 0, 2, 0, 16, 0] s).2,
        tr ++ [⟨p, [9, 0, 4, 0, 2, 0, 16, 0], (f p [9, 0, 4, 0, 2, 0, 16, 0] s).1⟩])) := by
  simp only [MicroXLS_Begin, checkwriter_traced, write_traced_last]
  rfl

theorem finish_traced {World Ptr : Type} (f : WriteFunc World Ptr)
    (p : Ptr) (s : World) (tr : List (WriteEvent Ptr)) :
    MicroXLS_Finish (tracedWriter f p) (s, tr) =
      ((f p [10, 0, 0, 0] s).1, ((f p [10, 0, 0, 0] s).2,
        tr ++ [⟨p, [10, 0, 0, 0], (f p [10, 0, 0, 0] s).1⟩])) := by
  simp only [MicroXLS_Finish, checkwriter_traced, write_traced_last]
  rfl

theorem addNumberCell_traced {World Ptr : Type} (f : WriteFunc World Ptr)
    (p : Ptr) (s : World) (tr : List (WriteEvent Ptr)) (row col val : Nat) :
    MicroXLS_AddNumberCell (tracedWriter f p) row col val (s, tr) =
      ((f p (numberRecord row col val) s).1, ((f p (numberRecord row col val) s).2,
        tr ++ [⟨p, numberRecord row col val, (f p (numberRecord row col val) s).1⟩])) := by
  simp only [MicroXLS_AddNumberCell, checkwriter_traced, write_traced_last]
  rfl

theorem setColumnWidth_traced {World Ptr : Type} (f : WriteFunc World Ptr)
    (p : Ptr) (s : World) (tr : List (WriteEvent Ptr)) (col width : Nat) :
    MicroXLS_SetColumnWidth (tracedWriter f p) col width (s, tr) =
      ((f p (colWidthRecord col width) s).1, ((f p (colWidthRecord col width) s).2,
        tr ++ [⟨p, colWidthRecord col width, (f p (colWidthRecord col width) s).1⟩])) := by
  simp only [MicroXLS_SetColumnWidth, checkwriter_traced, write_traced_last]
  rfl

theorem addLabelCell_traced {World Ptr : Type} (f : WriteFunc World Ptr)
    (p : Ptr) (s : World) (tr : List (WriteEvent Ptr)) (row col : Nat) (label : List Nat)
    (len : Nat) :
    MicroXLS_AddLabelCell (tracedWriter f p) row col label len (s, tr) =
      if (f p (labelHeader row col len) s).1 ≠ MXW_SUCCESS then
        ((f p (labelHeader row col len) s).1, ((f p (labelHeader row col len) s).2,
          tr ++ [⟨p, labelHeader row col len, (f p (labelHeader row col len) s).1⟩]))
      else
        ((f p (label.take (len % 256)) (f p (labelHeader row col len) s).2).1,
          ((f p (label.take (len % 256)) (f p (labelHeader row col len) s).2).2,
            tr ++ [⟨p, labelHeader row col len, MXW_SUCCESS⟩,
              ⟨p, label.take (len % 256),
                (f p (label.take (len % 256)) (f p (labelHeader row col len) s).2).1⟩])) := by
  simp only [MicroXLS_AddLabelCell, checkwriter_traced]
  rw [write_traced]
  simp only [write_traced_last, List.append_assoc, List.singleton_append]
  rfl

/-! ## The bytes each operation emits on a sink that accepts all writes -/

theorem emitted_begin {World Ptr : Type} (f : WriteFunc World Ptr)
    (p : Ptr) (s : World) (tr : List (WriteEvent Ptr)) :
    emitted f p s tr MicroXLS_Begin = [9, 0, 4, 0, 2, 0, 16, 0] := by
  simp [emitted, issued, bytesOf, begin_traced]

theorem emitted_finish {World Ptr : Type} (f : WriteFunc World Ptr)
    (p : Ptr) (s : World) (tr : List (WriteEvent Ptr)) :
    emitted f p s tr MicroXLS_Finish = [10, 0, 0, 0] := by
  simp [emitted, issued, bytesOf, finish_traced]

theorem emitted_addNumberCell {World Ptr : Type} (f : WriteFunc World Ptr)
    (p : Ptr) (s : World) (tr : List (WriteEvent Ptr)) (row col val : Nat) :
    emitted f p s tr (fun w => MicroXLS_AddNumberCell w row col val)
      = numberRecord row col val := by
  simp [emitted, issued, bytesOf, addNumberCell_traced]

theorem emitted_setColumnWidth {World Ptr : Type} (f : WriteFunc World Ptr)
    (p : Ptr) (s : World) (tr : List (WriteEvent Ptr)) (col width : Nat) :
    emitted f p s tr (fun w => MicroXLS_SetColumnWidth w col width)
      = colWidthRecord col width := by
  simp [emitted, issued, bytesOf, setColumnWidth_traced]

theorem addLabelCell_traced_accept {World Ptr : Type} (f : WriteFunc World Ptr)
    (hf : AcceptsAll f) (p : Ptr) (s : World) (tr : List (WriteEvent Ptr)) (row col : Nat)
    (label : List Nat) (len : Nat) :
    MicroXLS_AddLabelCell (tracedWriter f p) row col label len (s, tr) =
      (MXW_SUCCESS,
        ((f p (label.take (len % 256)) (f p (labelHeader row col len) s).2).2,
          tr ++ [⟨p, labelHeader row col len, MXW_SUCCESS⟩,
            ⟨p, label.take (len % 256), MXW_SUCCESS⟩])) := by
  rw [addLabelCell_traced]
  simp [hf p _ _]

theorem emitted_addLabelCell {World Ptr : Type} (f : WriteFunc World Ptr)
    (hf : AcceptsAll f) (p : Ptr) (s : World) (tr : List (WriteEvent Ptr)) (row col : Nat)
    (label : List Nat) (len : Nat) :
    emitted f p s tr (fun w => MicroXLS_AddLabelCell w row col label len)
      = labelHeader row col len ++ label.take (len % 256) := by
  simp [emitted, issued, bytesOf, addLabelCell_traced_accept f hf]

theorem acceptsAll_appendSink : AcceptsAll appendSink := fun _ _ _ => rfl

/-! ## Label cell: length field and layout -/

/-- C1, as stated, fails: for the one-byte label `A` (row 0, column 0, len 1)
on a sink that accepts all writes, the length field of the label record is 9,
not `len + 7 = 8`. -/
theorem C1_length_field_counterexample :
    AcceptsAll appendSink ∧ 1 ≤ 255 ∧ [65].length = 1 ∧
      le16At (emitted appendSink () [] [] (fun w => MicroXLS_AddLabelCell w 0 0 [65] 1)) 2 = 9 ∧
      le16At (emitted appendSink () [] [] (fun w => MicroXLS_AddLabelCell w 0 0 [65] 1)) 2
        ≠ 1 + 7 := by
  refine ⟨acceptsAll_appendSink, by decide, by decide, by decide, by decide⟩

/-- C1, amended: for every row, column, label buffer and `len ≤ 255`, on a sink that accepts all writes, the 16-bit
little-endian length field (bytes 2..3) of the record emitted by
`MicroXLS_AddLabelCell` equals `len + 8`. -/
theorem C1_length_field {World Ptr : Type} (f : WriteFunc World Ptr) (hf : AcceptsAll f)
    (p : Ptr) (s : World) (tr : List (WriteEvent Ptr)) (row col : Nat) (label : List Nat)
    (len : Nat) (hlen : len ≤ 255) :
    le16At (emitted f p s tr (fun w => MicroXLS_AddLabelCell w row col label len)) 2
      = len + 8 := by
  rw [emitted_addLabelCell f hf]
  have h : len % 256 = len := Nat.mod_eq_of_lt (by omega)
  simp only [labelHeader, bytesOfU16, bytesOfU8, le16At, h]
  simp
  omega

/-- C1, amended, at the label `Testing` of the test program. -/
theorem C1_length_field_witness :
    le16At (emitted appendSink () [] []
      (fun w => MicroXLS_AddLabelCell w 0 1 [84, 101, 115, 116, 105, 110, 103, 0] 7)) 2
      = 7 + 8 :=
  C1_length_field appendSink acceptsAll_appendSink () [] [] 0 1
    [84, 101, 115, 116, 105, 110, 103, 0] 7 (by decide)

/-- C2, as stated, fails: `AddLabelCell(row=0, col=1, "Testing", 7)` on a sink
that accepts all writes does not emit the 18 bytes `04 00 0E 00`,
`00 00 01 00 00 00 00 07`, `Testing`; its third byte is `0F` and it emits 19
bytes. -/
theorem C2_testing_counterexample :
    AcceptsAll appendSink ∧
      emitted appendSink () [] []
          (fun w => MicroXLS_AddLabelCell w 0 1 [84, 101, 115, 116, 105, 110, 103] 7)
        ≠ [4, 0, 14, 0, 0, 0, 1, 0, 0, 0, 0, 7, 84, 101, 115, 116, 105, 110, 103] ∧
      (emitted appendSink () [] []
          (fun w => MicroXLS_AddLabelCell w 0 1 [84, 101, 115, 116, 105, 110, 103] 7)).length
        ≠ 18 := by
  refine ⟨acceptsAll_appendSink, by decide, by decide⟩

/-- C2, amended: `AddLabelCell(row=0, col=1, "Testing", 7)` on a sink that
accepts all writes returns success and emits, in order, the tag/length bytes
`04 00 0F 00`, then `00 00 01 00 00 00 00 07`, then the 7 ASCII bytes of
`Testing`; 19 bytes in total. Whatever follows the 7 bytes in memory (`rest`,
the terminator of the C string for one) is not looked at. -/
theorem C2_testing {World Ptr : Type} (f : WriteFunc World Ptr) (hf : AcceptsAll f)
    (p : Ptr) (s : World) (tr : List (WriteEvent Ptr)) (rest : List Nat) :
    returned f p s tr
        (fun w => MicroXLS_AddLabelCell w 0 1 ([84, 101, 115, 116, 105, 110, 103] ++ rest) 7)
      = MXW_SUCCESS ∧
    emitted f p s tr
        (fun w => MicroXLS_AddLabelCell w 0 1 ([84, 101, 115, 116, 105, 110, 103] ++ rest) 7)
      = [4, 0, 15, 0] ++ [0, 0, 1, 0, 0, 0, 0, 7] ++ [84, 101, 115, 116, 105, 110, 103] ∧
    (emitted f p s tr
        (fun w => MicroXLS_AddLabelCell w 0 1 ([84, 101, 115, 116, 105, 110, 103] ++ rest) 7)).length
      = 19 := by
  have h : emitted f p s tr
      (fun w => MicroXLS_AddLabelCell w 0 1 ([84, 101, 115, 116, 105, 110, 103] ++ rest) 7)
      = [4, 0, 15, 0] ++ [0, 0, 1, 0, 0, 0, 0, 7] ++ [84, 101, 115, 116, 105, 110, 103] := by
    rw [emitted_addLabelCell f hf]
    rfl
  refine ⟨?_, h, ?_⟩
  · simp [returned, addLabelCell_traced_accept f hf]
  · rw [h]
    rfl

/-- C2, amended, on the file-like sink with the C string terminator after the label. -/
theorem C2_testing_witness :
    AcceptsAll appendSink ∧
    returned appendSink () [] []
        (fun w => MicroXLS_AddLabelCell w 0 1 ([84, 101, 115, 116, 105, 110, 103] ++ [0]) 7)
      = MXW_SUCCESS ∧
    emitted appendSink () [] []
        (fun w => MicroXLS_AddLabelCell w 0 1 ([84, 101, 115, 116, 105, 110, 103] ++ [0]) 7)
      = [4, 0, 15, 0] ++ [0, 0, 1, 0, 0, 0, 0, 7] ++ [84, 101, 115, 116, 105, 110, 103] ∧
    (emitted appendSink () [] []
        (fun w => MicroXLS_AddLabelCell w 0 1 ([84, 101, 115, 116, 105, 110, 103] ++ [0]) 7)).length
      = 19 :=
  ⟨acceptsAll_appendSink, C2_testing appendSink acceptsAll_appendSink () [] [] [0]⟩

/-- C4: for every 16-bit row and column and every label of `len ≤ 255` bytes,
on a sink that accepts all writes, `MicroXLS_AddLabelCell` emits the tag
`04 00`, the 2-byte length field (`len + 8`, low byte first), the row and the
column little-endian, three zero attribute bytes, one byte equal to `len`, and
then exactly the `len` label bytes, unchanged and in order, with nothing after
them; `12 + len` bytes in total. -/
theorem C4_label_layout {World Ptr : Type} (f : WriteFunc World Ptr) (hf : AcceptsAll f)
    (p : Ptr) (s : World) (tr : List (WriteEvent Ptr)) (row col : Nat) (label : List Nat)
    (len : Nat) (hrow : row < 65536) (hcol : col < 65536) (hlen : len ≤ 255)
    (hbuf : label.length = len) :
    emitted f p s tr (fun w => MicroXLS_AddLabelCell w row col label len)
      = [4, 0, (len + 8) % 256, (len + 8) / 256, row % 256, row / 256, col % 256, col / 256,
          0, 0, 0, len] ++ label ∧
    (emitted f p s tr (fun w => MicroXLS_AddLabelCell w row col label len)).length
      = 12 + len := by
  have h : len % 256 = len := Nat.mod_eq_of_lt (by omega)
  have h1 : (len + 12 - 4) % 65536 % 65536 = len + 8 := by omega
  have h2 : row % 65536 = row := Nat.mod_eq_of_lt hrow
  have h3 : col % 65536 = col := Nat.mod_eq_of_lt hcol
  have ht : label.take len = label := by rw [← hbuf]; exact List.take_length label
  rw [emitted_addLabelCell f hf]
  simp only [labelHeader, bytesOfU16, bytesOfU8, h, h1, h2, h3, ht]
  simp [hbuf]
  omega

/-- C4 at a label with an embedded zero byte and a byte above 127. -/
theorem C4_label_layout_witness :
    emitted appendSink () [] [] (fun w => MicroXLS_AddLabelCell w 258 3 [65, 0, 200] 3)
      = [4, 0, (3 + 8) % 256, (3 + 8) / 256, 258 % 256, 258 / 256, 3 % 256, 3 / 256,
          0, 0, 0, 3] ++ [65, 0, 200] ∧
    (emitted appendSink () [] [] (fun w => MicroXLS_AddLabelCell w 258 3 [65, 0, 200] 3)).length
      = 12 + 3 :=
  C4_label_layout appendSink acceptsAll_appendSink () [] [] 258 3 [65, 0, 200] 3
    (by decide) (by decide) (by decide) (by decide)

/-! ## Number cell, column width, begin and finish -/

/-- C5: for every 16-bit row and column and every 64-bit value pattern, on a
sink that accepts the write the call issues, `MicroXLS_AddNumberCell` returns
success and emits exactly 19 bytes: `03 00`, `0F 00`, the row little-endian at
offsets 4..5, the column little-endian at offsets 6..7, three zero attribute
bytes at offsets 8..10, and the 8 bytes of the value, low byte first, at
offsets 11..18. -/
theorem C5_number_layout {World Ptr : Type} (f : WriteFunc World Ptr)
    (p : Ptr) (s : World) (tr : List (WriteEvent Ptr)) (row col val : Nat)
    (hrow : row < 65536) (hcol : col < 65536) (hval : val < 2 ^ 64)
    (hacc : ∀ e ∈ issued f p s tr (fun w => MicroXLS_AddNumberCell w row col val),
      e.result = MXW_SUCCESS) :
    returned f p s tr (fun w => MicroXLS_AddNumberCell w row col val) = MXW_SUCCESS ∧
    emitted f p s tr (fun w => MicroXLS_AddNumberCell w row col val)
      = [3, 0, 15, 0, row % 256, row / 256, col % 256, col / 256, 0, 0, 0,
          val % 256, val / 2 ^ 8 % 256, val / 2 ^ 16 % 256, val / 2 ^ 24 % 256,
          val / 2 ^ 32 % 256, val / 2 ^ 40 % 256, val / 2 ^ 48 % 256, val / 2 ^ 56] ∧
    (emitted f p s tr (fun w => MicroXLS_AddNumberCell w row col val)).length = 19 := by
  have h1 : val % 2 ^ 64 = val := Nat.mod_eq_of_lt hval
  have h2 : row % 65536 = row := Nat.mod_eq_of_lt hrow
  have h3 : col % 65536 = col := Nat.mod_eq_of_lt hcol
  have hw : (f p (numberRecord row col val) s).1 = MXW_SUCCESS := by
    have hi : issued f p s tr (fun w => MicroXLS_AddNumberCell w row col val)
        = [⟨p, numberRecord row col val, (f p (numberRecord row col val) s).1⟩] := by
      simp [issued, addNumberCell_traced]
    rw [hi] at hacc
    exact hacc _ (List.mem_singleton.mpr rfl)
  refine ⟨?_, ?_, ?_⟩
  · simp only [returned, addNumberCell_traced]
    exact hw
  · rw [emitted_addNumberCell]
    simp only [numberRecord, bytesOfU16, bytesOfDouble, h1, h2, h3]
    rfl
  · rw [emitted_addNumberCell]
    rfl

/-- C5 at row 0, column 255 and the bit pattern of the double 3.141592, on the
test program's `WriteToFile` over a file with unlimited room. -/
theorem C5_number_layout_witness :
    returned (WriteToFile fwriteAll) () [] []
      (fun w => MicroXLS_AddNumberCell w 0 255 0x400921FAFC8B007A) = MXW_SUCCESS ∧
    emitted (WriteToFile fwriteAll) () [] []
        (fun w => MicroXLS_AddNumberCell w 0 255 0x400921FAFC8B007A)
      = [3, 0, 15, 0, 0 % 256, 0 / 256, 255 % 256, 255 / 256, 0, 0, 0,
          0x400921FAFC8B007A % 256, 0x400921FAFC8B007A / 2 ^ 8 % 256,
          0x400921FAFC8B007A / 2 ^ 16 % 256, 0x400921FAFC8B007A / 2 ^ 24 % 256,
          0x400921FAFC8B007A / 2 ^ 32 % 256, 0x400921FAFC8B007A / 2 ^ 40 % 256,
          0x400921FAFC8B007A / 2 ^ 48 % 256, 0x400921FAFC8B007A / 2 ^ 56] ∧
    (emitted (WriteToFile fwriteAll) () [] []
      (fun w => MicroXLS_AddNumberCell w 0 255 0x400921FAFC8B007A)).length = 19 :=
  C5_number_layout (WriteToFile fwriteAll) () [] [] 0 255 0x400921FAFC8B007A
    (by decide) (by decide) (by decide) (by decide)

/-- C7: for every column in 0..255 and width in 0..65535, on a sink that
accepts the write the call issues, `MicroXLS_SetColumnWidth` returns success
and emits exactly 8 bytes: `24 00`, `04 00`, a first-column byte and a
last-column byte both equal to `col`, then the width little-endian. -/
theorem C7_column_width_layout {World Ptr : Type} (f : WriteFunc World Ptr)
    (p : Ptr) (s : World) (tr : List (WriteEvent Ptr)) (col width : Nat)
    (hcol : col < 256) (hwidth : width < 65536)
    (hacc : ∀ e ∈ issued f p s tr (fun w => MicroXLS_SetColumnWidth w col width),
      e.result = MXW_SUCCESS) :
    returned f p s tr (fun w => MicroXLS_SetColumnWidth w col width) = MXW_SUCCESS ∧
    emitted f p s tr (fun w => MicroXLS_SetColumnWidth w col width)
      = [0x24, 0x00, 0x04, 0x00, col, col, width % 256, width / 256] ∧
    (emitted f p s tr (fun w => MicroXLS_SetColumnWidth w col width)).length = 8 := by
  have h1 : col % 256 = col := Nat.mod_eq_of_lt hcol
  have h2 : width % 65536 = width := Nat.mod_eq_of_lt hwidth
  have hw : (f p (colWidthRecord col width) s).1 = MXW_SUCCESS := by
    have hi : issued f p s tr (fun w => MicroXLS_SetColumnWidth w col width)
        = [⟨p, colWidthRecord col width, (f p (colWidthRecord col width) s).1⟩] := by
      simp [issued, setColumnWidth_traced]
    rw [hi] at hacc
    exact hacc _ (List.mem_singleton.mpr rfl)
  refine ⟨?_, ?_, ?_⟩
  · simp only [returned, setColumnWidth_traced]
    exact hw
  · rw [emitted_setColumnWidth]
    simp only [colWidthRecord, bytesOfU16, h1, h2]
    rfl
  · rw [emitted_setColumnWidth]
    rfl

/-- C7 at the test program's call, column 2 and width 25600, on the test
program's `WriteToFile` over a file with unlimited room. -/
theorem C7_column_width_layout_witness :
    returned (WriteToFile fwriteAll) () [] [] (fun w => MicroXLS_SetColumnWidth w 2 25600)
      = MXW_SUCCESS ∧
    emitted (WriteToFile fwriteAll) () [] [] (fun w => MicroXLS_SetColumnWidth w 2 25600)
      = [0x24, 0x00, 0x04, 0x00, 2, 2, 25600 % 256, 25600 / 256] ∧
    (emitted (WriteToFile fwriteAll) () [] []
      (fun w => MicroXLS_SetColumnWidth w 2 25600)).length = 8 :=
  C7_column_width_layout (WriteToFile fwriteAll) () [] [] 2 25600
    (by decide) (by decide) (by decide)

/-- C8: on every valid writer whose sink accepts the write, `MicroXLS_Begin`
returns success and emits, in one write, exactly the 8 bytes
`09 00 04 00 02 00 10 00`. -/
theorem C8_begin_bytes {World Ptr : Type} (f : WriteFunc World Ptr)
    (p : Ptr) (s : World) (tr : List (WriteEvent Ptr))
    (hacc : (f p [0x09, 0x00, 0x04, 0x00, 0x02, 0x00, 0x10, 0x00] s).1 = MXW_SUCCESS) :
    returned f p s tr MicroXLS_Begin = MXW_SUCCESS ∧
    emitted f p s tr MicroXLS_Begin = [0x09, 0x00, 0x04, 0x00, 0x02, 0x00, 0x10, 0x00] ∧
    issued f p s tr MicroXLS_Begin
      = [⟨p, [0x09, 0x00, 0x04, 0x00, 0x02, 0x00, 0x10, 0x00], MXW_SUCCESS⟩] := by
  refine ⟨?_, emitted_begin f p s tr, ?_⟩
  · simp only [returned, begin_traced]
    exact hacc
  · simp [issued, begin_traced, hacc]

/-- C8 on the test program's `WriteToFile` over a file with unlimited room, a
sink that accepts this write though it refuses an empty one. -/
theorem C8_begin_bytes_witness :
    (WriteToFile fwriteAll () [0x09, 0x00, 0x04, 0x00, 0x02, 0x00, 0x10, 0x00] []).1
      = MXW_SUCCESS ∧
    (WriteToFile fwriteAll () [] []).1 = MXW_IO_ERROR ∧
    returned (WriteToFile fwriteAll) () [] [] MicroXLS_Begin = MXW_SUCCESS ∧
    emitted (WriteToFile fwriteAll) () [] [] MicroXLS_Begin
      = [0x09, 0x00, 0x04, 0x00, 0x02, 0x00, 0x10, 0x00] ∧
    issued (WriteToFile fwriteAll) () [] [] MicroXLS_Begin
      = [⟨(), [0x09, 0x00, 0x04, 0x00, 0x02, 0x00, 0x10, 0x00], MXW_SUCCESS⟩] :=
  ⟨by decide, by decide, C8_begin_bytes (WriteToFile fwriteAll) () [] [] (by decide)⟩

/-- C9: on every valid writer whose sink accepts the write, `MicroXLS_Finish`
returns success and emits, in one write, exactly the 4 bytes `0A 00 00 00`. -/
theorem C9_finish_bytes {World Ptr : Type} (f : WriteFunc World Ptr)
    (p : Ptr) (s : World) (tr : List (WriteEvent Ptr))
    (hacc : (f p [0x0A, 0x00, 0x00, 0x00] s).1 = MXW_SUCCESS) :
    returned f p s tr MicroXLS_Finish = MXW_SUCCESS ∧
    emitted f p s tr MicroXLS_Finish = [0x0A, 0x00, 0x00, 0x00] ∧
    issued f p s tr MicroXLS_Finish = [⟨p, [0x0A, 0x00, 0x00, 0x00], MXW_SUCCESS⟩] := by
  refine ⟨?_, emitted_finish f p s tr, ?_⟩
  · simp only [returned, finish_traced]
    exact hacc
  · simp [issued, finish_traced, hacc]

/-- C9 on the test program's `WriteToFile` over a file with unlimited room, a
sink that accepts this write though it refuses an empty one. -/
theorem C9_finish_bytes_witness :
    (WriteToFile fwriteAll () [0x0A, 0x00, 0x00, 0x00] []).1 = MXW_SUCCESS ∧
    (WriteToFile fwriteAll () [] []).1 = MXW_IO_ERROR ∧
    returned (WriteToFile fwriteAll) () [] [] MicroXLS_Finish = MXW_SUCCESS ∧
    emitted (WriteToFile fwriteAll) () [] [] MicroXLS_Finish = [0x0A, 0x00, 0x00, 0x00] ∧
    issued (WriteToFile fwriteAll) () [] [] MicroXLS_Finish
      = [⟨(), [0x0A, 0x00, 0x00, 0x00], MXW_SUCCESS⟩] :=
  ⟨by decide, by decide, C9_finish_bytes (WriteToFile fwriteAll) () [] [] (by decide)⟩

/-! ## The length field of every record -/

/-- C3: for each of the five operations and all arguments of their C types, on
a sink that accepts all writes, the emitted record has at least the four bytes
of tag and length, and the 16-bit little-endian value of its length field
(bytes 2..3) equals the number of bytes emitted after those four; for a label
record that is the row, column, attribute and label-length bytes and the label
data, `2 + 2 + 3 + 1 + len`. -/
theorem C3_length_counts_body {World Ptr : Type} (f : WriteFunc World Ptr)
    (hf : AcceptsAll f) (p : Ptr) (s : World) (tr : List (WriteEvent Ptr)) (c : Call)
    (hc : c.InRange) :
    4 ≤ (emitted f p s tr c.run).length ∧
    le16At (emitted f p s tr c.run) 2 = (emitted f p s tr c.run).length - 4 ∧
    ∀ row col label len, c = Call.AddLabelCell row col label len →
      le16At (emitted f p s tr c.run) 2 = 2 + 2 + 3 + 1 + len := by
  cases c with
  | Begin =>
    change 4 ≤ (emitted f p s tr MicroXLS_Begin).length ∧
      le16At (emitted f p s tr MicroXLS_Begin) 2 = (emitted f p s tr MicroXLS_Begin).length - 4 ∧ _
    rw [emitted_begin]
    exact ⟨by decide, by decide, fun _ _ _ _ h => by cases h⟩
  | Finish =>
    change 4 ≤ (emitted f p s tr MicroXLS_Finish).length ∧
      le16At (emitted f p s tr MicroXLS_Finish) 2
        = (emitted f p s tr MicroXLS_Finish).length - 4 ∧ _
    rw [emitted_finish]
    exact ⟨by decide, by decide, fun _ _ _ _ h => by cases h⟩
  | SetColumnWidth col width =>
    have e := emitted_setColumnWidth f p s tr col width
    change 4 ≤ (emitted f p s tr (fun w => MicroXLS_SetColumnWidth w col width)).length ∧
      le16At (emitted f p s tr (fun w => MicroXLS_SetColumnWidth w col width)) 2
        = (emitted f p s tr (fun w => MicroXLS_SetColumnWidth w col width)).length - 4 ∧ _
    rw [e]
    refine ⟨?_, ?_, fun _ _ _ _ h => by cases h⟩
    · simp [colWidthRecord, bytesOfU16]
    · simp [colWidthRecord, bytesOfU16, le16At]
  | AddNumberCell row col val =>
    have e := emitted_addNumberCell f p s tr row col val
    change 4 ≤ (emitted f p s tr (fun w => MicroXLS_AddNumberCell w row col val)).length ∧
      le16At (emitted f p s tr (fun w => MicroXLS_AddNumberCell w row col val)) 2
        = (emitted f p s tr (fun w => MicroXLS_AddNumberCell w row col val)).length - 4 ∧ _
    rw [e]
    refine ⟨?_, ?_, fun _ _ _ _ h => by cases h⟩
    · simp [numberRecord, bytesOfU16, bytesOfDouble]
    · simp [numberRecord, bytesOfU16, bytesOfDouble, le16At]
  | AddLabelCell row col label len =>
    have e := emitted_addLabelCell f hf p s tr row col label len
    change 4 ≤ (emitted f p s tr (fun w => MicroXLS_AddLabelCell w row col label len)).length ∧
      le16At (emitted f p s tr (fun w => MicroXLS_AddLabelCell w row col label len)) 2
        = (emitted f p s tr (fun w => MicroXLS_AddLabelCell w row col label len)).length - 4 ∧
      ∀ row1 col1 label1 len1, Call.AddLabelCell row col label len
          = Call.AddLabelCell row1 col1 label1 len1 →
        le16At (emitted f p s tr (fun w => MicroXLS_AddLabelCell w row col label len)) 2
          = 2 + 2 + 3 + 1 + len1
    rw [e]
    obtain ⟨_, _, hlen, hbuf⟩ := hc
    have h : len % 256 = len := Nat.mod_eq_of_lt hlen
    have hmin : min len label.length = len := Nat.min_eq_left hbuf
    have hfield : le16At (labelHeader row col len ++ List.take (len % 256) label) 2
        = len + 8 := by
      simp only [labelHeader, bytesOfU16, bytesOfU8, le16At, h]
      simp
      omega
    refine ⟨?_, ?_, ?_⟩
    · simp [labelHeader, bytesOfU16, bytesOfU8]
    · rw [hfield]
      simp [labelHeader, bytesOfU16, bytesOfU8, h, hmin]
    · intro row1 col1 label1 len1 heq
      cases heq
      rw [hfield]
      omega

/-- C3 at a label cell call with a three-byte label. -/
theorem C3_length_counts_body_witness :
    (Call.AddLabelCell 7 9 [65, 66, 67] 3).InRange ∧
    4 ≤ (emitted appendSink () [] [] (Call.AddLabelCell 7 9 [65, 66, 67] 3).run).length ∧
    le16At (emitted appendSink () [] [] (Call.AddLabelCell 7 9 [65, 66, 67] 3).run) 2
      = (emitted appendSink () [] [] (Call.AddLabelCell 7 9 [65, 66, 67] 3).run).length - 4 ∧
    ∀ row col label len, Call.AddLabelCell 7 9 [65, 66, 67] 3 = Call.AddLabelCell row col label len →
      le16At (emitted appendSink () [] [] (Call.AddLabelCell 7 9 [65, 66, 67] 3).run) 2
        = 2 + 2 + 3 + 1 + len :=
  ⟨by decide,
    C3_length_counts_body appendSink acceptsAll_appendSink () [] []
      (Call.AddLabelCell 7 9 [65, 66, 67] 3) (by decide)⟩

/-! ## Number cell round trip -/

theorem decode_numberRecord (row col val : Nat)
    (hrow : row < 65536) (hcol : col < 65536) (hval : val < 2 ^ 64) :
    decodeNumberCell (numberRecord row col val) = (row, col, val) := by
  have h1 : val % 2 ^ 64 = val := Nat.mod_eq_of_lt hval
  have h2 : row % 65536 = row := Nat.mod_eq_of_lt hrow
  have h3 : col % 65536 = col := Nat.mod_eq_of_lt hcol
  simp only [decodeNumberCell, numberRecord, bytesOfU16, bytesOfDouble, le16At, le64At,
    h1, h2, h3]
  simp only [List.cons_append, List.nil_append, List.getD_cons_succ, List.getD_cons_zero,
    Nat.reduceAdd, Nat.reducePow]
  simp only [Nat.reducePow] at hval
  refine Prod.ext ?_ (Prod.ext ?_ ?_)
  · show row % 256 + 256 * (row / 256) = row
    omega
  · show col % 256 + 256 * (col / 256) = col
    omega
  · show val % 256 + 256 * (val / 256 % 256) + 65536 * (val / 65536 % 256)
      + 16777216 * (val / 16777216 % 256) + 4294967296 * (val / 4294967296 % 256)
      + 1099511627776 * (val / 1099511627776 % 256)
      + 281474976710656 * (val / 281474976710656 % 256)
      + 72057594037927936 * (val / 72057594037927936) = val
    omega

/-- C6: round trip for number cells. For all rows and columns in 0..65535 and
every 64-bit pattern `val`, reading the bytes emitted by
`MicroXLS_AddNumberCell` by the record table (row at offset 4, column at offset
6, both 16-bit little-endian, value 64-bit little-endian at offset 11) gives
back exactly `row`, `col` and `val`; hence two calls that emit the same bytes
have the same row, column and value pattern. -/
theorem C6_number_round_trip {World Ptr : Type} (f : WriteFunc World Ptr)
    (p : Ptr) (s : World) (tr : List (WriteEvent Ptr)) (row col val : Nat)
    (hrow : row < 65536) (hcol : col < 65536) (hval : val < 2 ^ 64) :
    decodeNumberCell (emitted f p s tr (fun w => MicroXLS_AddNumberCell w row col val))
      = (row, col, val) ∧
    ∀ row1 col1 val1, row1 < 65536 → col1 < 65536 → val1 < 2 ^ 64 →
      emitted f p s tr (fun w => MicroXLS_AddNumberCell w row1 col1 val1)
        = emitted f p s tr (fun w => MicroXLS_AddNumberCell w row col val) →
      row1 = row ∧ col1 = col ∧ val1 = val := by
  refine ⟨?_, ?_⟩
  · rw [emitted_addNumberCell]
    exact decode_numberRecord row col val hrow hcol hval
  · intro row1 col1 val1 h1 h2 h3 heq
    rw [emitted_addNumberCell, emitted_addNumberCell] at heq
    have hd := congrArg decodeNumberCell heq
    rw [decode_numberRecord row col val hrow hcol hval,
      decode_numberRecord row1 col1 val1 h1 h2 h3] at hd
    simpa using hd

/-- C6 at row 513, column 65535 and the pattern of a quiet NaN with a payload. -/
theorem C6_number_round_trip_witness :
    decodeNumberCell (emitted appendSink () [] []
        (fun w => MicroXLS_AddNumberCell w 513 65535 0x7FF8000000000001))
      = (513, 65535, 0x7FF8000000000001) ∧
    ∀ row1 col1 val1, row1 < 65536 → col1 < 65536 → val1 < 2 ^ 64 →
      emitted appendSink () [] [] (fun w => MicroXLS_AddNumberCell w row1 col1 val1)
        = emitted appendSink () [] []
            (fun w => MicroXLS_AddNumberCell w 513 65535 0x7FF8000000000001) →
      row1 = 513 ∧ col1 = 65535 ∧ val1 = 0x7FF8000000000001 :=
  C6_number_round_trip appendSink () [] [] 513 65535 0x7FF8000000000001
    (by decide) (by decide) (by decide)

/-! ## Invalid writers -/

theorem run_null {World Ptr : Type} (c : Call) (s : World) :
    c.run (none : Option (MicroXLSWriter World Ptr)) s = (MXW_INVALID_PARAM, s) := by
  cases c <;> rfl

theorem run_null_writeFunc {World Ptr : Type} (c : Call) (p : Ptr) (s : World) :
    c.run (some (⟨none, p⟩ : MicroXLSWriter World Ptr)) s = (MXW_INVALID_PARAM, s) := by
  cases c <;> rfl

theorem run_traced_log {World Ptr : Type} (f : WriteFunc World Ptr) (p : Ptr) (s : World)
    (tr : List (WriteEvent Ptr)) (c : Call) :
    ∃ e es, (c.run (tracedWriter f p) (s, tr)).2.2 = tr ++ e :: es ∧
      ((c.run (tracedWriter f p) (s, tr)).1 = MXW_INVALID_PARAM →
        ∃ ev ∈ e :: es, ev.result = MXW_INVALID_PARAM) := by
  cases c with
  | Begin =>
    refine ⟨_, [], congrArg (fun x => x.2.2) (begin_traced f p s tr), ?_⟩
    intro h
    rw [show (Call.Begin.run (tracedWriter f p) (s, tr)) = _ from begin_traced f p s tr] at h
    exact ⟨_, List.mem_singleton.mpr rfl, h⟩
  | Finish =>
    refine ⟨_, [], congrArg (fun x => x.2.2) (finish_traced f p s tr), ?_⟩
    intro h
    rw [show (Call.Finish.run (tracedWriter f p) (s, tr)) = _ from finish_traced f p s tr] at h
    exact ⟨_, List.mem_singleton.mpr rfl, h⟩
  | SetColumnWidth col width =>
    refine ⟨_, [], congrArg (fun x => x.2.2) (setColumnWidth_traced f p s tr col width), ?_⟩
    intro h
    rw [show ((Call.SetColumnWidth col width).run (tracedWriter f p) (s, tr)) = _ from
      setColumnWidth_traced f p s tr col width] at h
    exact ⟨_, List.mem_singleton.mpr rfl, h⟩
  | AddNumberCell row col val =>
    refine ⟨_, [], congrArg (fun x => x.2.2) (addNumberCell_traced f p s tr row col val), ?_⟩
    intro h
    rw [show ((Call.AddNumberCell row col val).run (tracedWriter f p) (s, tr)) = _ from
      addNumberCell_traced f p s tr row col val] at h
    exact ⟨_, List.mem_singleton.mpr rfl, h⟩
  | AddLabelCell row col label len =>
    have e : (Call.AddLabelCell row col label len).run (tracedWriter f p) (s, tr) = _ :=
      addLabelCell_traced f p s tr row col label len
    rw [e]
    by_cases h1 : (f p (labelHeader row col len) s).1 = MXW_SUCCESS
    · rw [if_neg (by simpa using h1)]
      refine ⟨_, _, rfl, ?_⟩
      intro h
      exact ⟨_, List.mem_cons_of_mem _ (List.mem_singleton.mpr rfl), h⟩
    · rw [if_pos h1]
      refine ⟨_, [], rfl, ?_⟩
      intro h
      exact ⟨_, List.mem_singleton.mpr rfl, h⟩

theorem write_last {World Ptr : Type} (f : WriteFunc World Ptr) (p : Ptr)
    (buf : List Nat) (n : Nat) (s : World) :
    MXW_WRITE f p buf n (fun st => (MXW_SUCCESS, st)) s = f p (buf.take n) s := by
  unfold MXW_WRITE
  by_cases h : (f p (buf.take n) s).1 = MXW_SUCCESS
  · simp only [h, ne_eq, not_true_eq_false, if_false]
    exact Prod.ext h.symm rfl
  · simp only [h, ne_eq, not_false_eq_true, if_true]

/-- Logging changes nothing: a call on the logged writer returns the code and
leaves the world that the same call on the plain writer does. -/
theorem run_traced_faithful {World Ptr : Type} (f : WriteFunc World Ptr) (p : Ptr)
    (s : World) (tr : List (WriteEvent Ptr)) (c : Call) :
    ((c.run (tracedWriter f p) (s, tr)).1, (c.run (tracedWriter f p) (s, tr)).2.1)
      = c.run (some ⟨some f, p⟩) s := by
  have aux : ∀ (buf : List Nat) (n : Nat), List.take n buf = buf →
      ((f p buf s).1, (f p buf s).2)
        = MXW_WRITE f p buf n (fun st => (MXW_SUCCESS, st)) s := by
    intro buf n h
    rw [write_last, h]
  cases c with
  | Begin =>
    rw [show (Call.Begin.run (tracedWriter f p) (s, tr)) = _ from begin_traced f p s tr]
    exact aux [9, 0, 4, 0, 2, 0, 16, 0] 8 rfl
  | Finish =>
    rw [show (Call.Finish.run (tracedWriter f p) (s, tr)) = _ from finish_traced f p s tr]
    exact aux [10, 0, 0, 0] 4 rfl
  | SetColumnWidth col width =>
    rw [show ((Call.SetColumnWidth col width).run (tracedWriter f p) (s, tr)) = _ from
      setColumnWidth_traced f p s tr col width]
    exact aux (colWidthRecord col width) 8 rfl
  | AddNumberCell row col val =>
    rw [show ((Call.AddNumberCell row col val).run (tracedWriter f p) (s, tr)) = _ from
      addNumberCell_traced f p s tr row col val]
    exact aux (numberRecord row col val) 19 rfl
  | AddLabelCell row col label len =>
    rw [show ((Call.AddLabelCell row col label len).run (tracedWriter f p) (s, tr)) = _ from
      addLabelCell_traced f p s tr row col label len]
    have hplain : (Call.AddLabelCell row col label len).run (some ⟨some f, p⟩) s
        = if (f p (labelHeader row col len) s).1 ≠ MXW_SUCCESS then
            ((f p (labelHeader row col len) s).1, (f p (labelHeader row col len) s).2)
          else f p (label.take (len % 256)) (f p (labelHeader row col len) s).2 := by
      show MXW_WRITE f p (labelHeader row col len) 12
        (MXW_WRITE f p label (len % 256) (fun st => (MXW_SUCCESS, st))) s = _
      unfold MXW_WRITE
      have ht : List.take 12 (labelHeader row col len) = labelHeader row col len := rfl
      rw [ht]
      by_cases h : (f p (labelHeader row col len) s).1 = MXW_SUCCESS
      · simp only [h, ne_eq, not_true_eq_false, if_false]
        exact write_last f p label (len % 256) _
      · simp only [h, ne_eq, not_false_eq_true, if_true]
    rw [hplain]
    by_cases h : (f p (labelHeader row col len) s).1 = MXW_SUCCESS
    · simp only [h, ne_eq, not_true_eq_false, if_false]
    · simp only [h, ne_eq, not_false_eq_true, if_true]

/-- C10: for each of the five operations and all other arguments, a null
writer, or a writer whose `writeFunc` is null, makes the operation return
`MXW_INVALID_PARAM` with the world untouched, so no sink write is issued; and
on a writer with a callback, the call adds at least one write to the log, and
returns `MXW_INVALID_PARAM` only if one of the writes it issued returned that
code. -/
theorem C10_invalid_param {World Ptr : Type} (c : Call) (f : WriteFunc World Ptr) (p : Ptr)
    (s : World) (tr : List (WriteEvent Ptr)) :
    c.run (none : Option (MicroXLSWriter (World × List (WriteEvent Ptr)) Ptr)) (s, tr)
      = (MXW_INVALID_PARAM, (s, tr)) ∧
    c.run (some (⟨none, p⟩ : MicroXLSWriter (World × List (WriteEvent Ptr)) Ptr)) (s, tr)
      = (MXW_INVALID_PARAM, (s, tr)) ∧
    (c.run (tracedWriter f p) (s, tr)).2.2 = tr ++ issued f p s tr c.run ∧
    issued f p s tr c.run ≠ [] ∧
    (returned f p s tr c.run = MXW_INVALID_PARAM →
      ∃ ev ∈ issued f p s tr c.run, ev.result = MXW_INVALID_PARAM) := by
  obtain ⟨e, es, hlog, hres⟩ := run_traced_log f p s tr c
  have hi : issued f p s tr c.run = e :: es := by
    simp [issued, hlog]
  refine ⟨run_null c (s, tr), run_null_writeFunc c p (s, tr), ?_, ?_, ?_⟩
  · rw [hi, hlog]
  · rw [hi]
    exact List.cons_ne_nil e es
  · rw [hi]
    exact hres

/-- C10 at a label cell call on a sink that refuses with `MXW_INVALID_PARAM`. -/
theorem C10_invalid_param_witness :
    (Call.AddLabelCell 0 1 [65] 1).run
        (none : Option (MicroXLSWriter (List Nat × List (WriteEvent Unit)) Unit)) ([], [])
      = (MXW_INVALID_PARAM, ([], [])) ∧
    (Call.AddLabelCell 0 1 [65] 1).run
        (some (⟨none, ()⟩ : MicroXLSWriter (List Nat × List (WriteEvent Unit)) Unit)) ([], [])
      = (MXW_INVALID_PARAM, ([], [])) ∧
    ((Call.AddLabelCell 0 1 [65] 1).run
        (tracedWriter (rejectSink MXW_INVALID_PARAM) ()) ([], [])).2.2
      = [] ++ issued (rejectSink MXW_INVALID_PARAM) () [] [] (Call.AddLabelCell 0 1 [65] 1).run ∧
    issued (rejectSink MXW_INVALID_PARAM) () [] [] (Call.AddLabelCell 0 1 [65] 1).run ≠ [] ∧
    (returned (rejectSink MXW_INVALID_PARAM) () [] [] (Call.AddLabelCell 0 1 [65] 1).run
        = MXW_INVALID_PARAM →
      ∃ ev ∈ issued (rejectSink MXW_INVALID_PARAM) () [] [] (Call.AddLabelCell 0 1 [65] 1).run,
        ev.result = MXW_INVALID_PARAM) :=
  C10_invalid_param (Call.AddLabelCell 0 1 [65] 1) (rejectSink MXW_INVALID_PARAM) () [] []

/-! ## Error propagation -/

/-- Every call on a logged valid writer issues either one write and returns its
result, or, for a label cell whose first write succeeded, two writes, and
returns the result of the second. -/
theorem run_traced_shape {World Ptr : Type} (f : WriteFunc World Ptr) (p : Ptr) (s : World)
    (tr : List (WriteEvent Ptr)) (c : Call) :
    (∃ e, issued f p s tr c.run = [e] ∧ returned f p s tr c.run = e.result) ∨
    (∃ e1 e2, issued f p s tr c.run = [e1, e2] ∧ e1.result = MXW_SUCCESS ∧
      returned f p s tr c.run = e2.result) := by
  cases c with
  | Begin =>
    left
    refine ⟨⟨p, [9, 0, 4, 0, 2, 0, 16, 0], (f p [9, 0, 4, 0, 2, 0, 16, 0] s).1⟩, ?_, ?_⟩
    · simp [issued, Call.run, begin_traced]
    · simp [returned, Call.run, begin_traced]
  | Finish =>
    left
    refine ⟨⟨p, [10, 0, 0, 0], (f p [10, 0, 0, 0] s).1⟩, ?_, ?_⟩
    · simp [issued, Call.run, finish_traced]
    · simp [returned, Call.run, finish_traced]
  | SetColumnWidth col width =>
    left
    refine ⟨⟨p, colWidthRecord col width, (f p (colWidthRecord col width) s).1⟩, ?_, ?_⟩
    · simp [issued, Call.run, setColumnWidth_traced]
    · simp [returned, Call.run, setColumnWidth_traced]
  | AddNumberCell row col val =>
    left
    refine ⟨⟨p, numberRecord row col val, (f p (numberRecord row col val) s).1⟩, ?_, ?_⟩
    · simp [issued, Call.run, addNumberCell_traced]
    · simp [returned, Call.run, addNumberCell_traced]
  | AddLabelCell row col label len =>
    by_cases h : (f p (labelHeader row col len) s).1 = MXW_SUCCESS
    · right
      refine ⟨⟨p, labelHeader row col len, MXW_SUCCESS⟩, ⟨p, label.take (len % 256),
        (f p (label.take (len % 256)) (f p (labelHeader row col len) s).2).1⟩, ?_, rfl, ?_⟩
      · simp [issued, Call.run, addLabelCell_traced, h]
      · simp [returned, Call.run, addLabelCell_traced, h]
    · left
      refine ⟨⟨p, labelHeader row col len, (f p (labelHeader row col len) s).1⟩, ?_, ?_⟩
      · simp [issued, Call.run, addLabelCell_traced, h]
      · simp [returned, Call.run, addLabelCell_traced, h]

/-- C11: no error translation. For each of the five operations on a valid
writer and for every sink behaviour, the operation returns `MXW_SUCCESS` if and
only if every sink write it issued returned `MXW_SUCCESS`, and otherwise it
returns exactly the result code of the first write that did not, unchanged. -/
theorem C11_no_error_translation {World Ptr : Type} (f : WriteFunc World Ptr) (p : Ptr)
    (s : World) (tr : List (WriteEvent Ptr)) (c : Call) :
    (returned f p s tr c.run = MXW_SUCCESS ↔
      ∀ e ∈ issued f p s tr c.run, e.result = MXW_SUCCESS) ∧
    returned f p s tr c.run = firstFailure (issued f p s tr c.run) := by
  rcases run_traced_shape f p s tr c with ⟨e, hi, hr⟩ | ⟨e1, e2, hi, h1, hr⟩
  · rw [hi, hr]
    refine ⟨by simp, ?_⟩
    by_cases h : e.result = MXW_SUCCESS
    · simp [firstFailure, h]
    · simp [firstFailure, h]
  · rw [hi, hr]
    refine ⟨by simp [h1], ?_⟩
    by_cases h : e2.result = MXW_SUCCESS
    · simp [firstFailure, h, h1]
    · simp [firstFailure, h, h1]

/-- C11 at a label cell call whose second write is refused with the code 5,
which is neither of the two error codes of the library. -/
theorem C11_no_error_translation_witness :
    (returned (failNthSink 1 5) () (0, []) [] (Call.AddLabelCell 0 1 [65] 1).run = MXW_SUCCESS ↔
      ∀ e ∈ issued (failNthSink 1 5) () (0, []) [] (Call.AddLabelCell 0 1 [65] 1).run,
        e.result = MXW_SUCCESS) ∧
    returned (failNthSink 1 5) () (0, []) [] (Call.AddLabelCell 0 1 [65] 1).run
      = firstFailure (issued (failNthSink 1 5) () (0, []) [] (Call.AddLabelCell 0 1 [65] 1).run) :=
  C11_no_error_translation (failNthSink 1 5) () (0, []) [] (Call.AddLabelCell 0 1 [65] 1)

theorem labelHeader_eq (row col len : Nat) (hrow : row < 65536) (hcol : col < 65536)
    (hlen : len ≤ 255) : labelHeader row col len = labelFixedPart row col len := by
  have h : len % 256 = len := Nat.mod_eq_of_lt (by omega)
  have h1 : (len + 12 - 4) % 65536 % 65536 = len + 8 := by omega
  have h2 : row % 65536 = row := Nat.mod_eq_of_lt hrow
  have h3 : col % 65536 = col := Nat.mod_eq_of_lt hcol
  simp only [labelHeader, labelFixedPart, bytesOfU16, bytesOfU8, h, h1, h2, h3]
  rfl

/-- C12: for every `MicroXLS_AddLabelCell` call on a valid writer, with
arguments of their C types: if the sink fails on the first write of the call,
that write is the only one issued and the call returns its result; if the sink
succeeds on the first write and fails on the second, the sink has received the
complete first write (the 12 bytes with length, row, column and label length
filled in), then the label bytes, and the call returns the result of the
second write. -/
theorem C12_label_write_failures {World Ptr : Type} (f : WriteFunc World Ptr) (p : Ptr)
    (s : World) (tr : List (WriteEvent Ptr)) (row col : Nat) (label : List Nat) (len : Nat)
    (hrow : row < 65536) (hcol : col < 65536) (hlen : len ≤ 255) :
    ((f p (labelFixedPart row col len) s).1 ≠ MXW_SUCCESS →
      issued f p s tr (fun w => MicroXLS_AddLabelCell w row col label len)
        = [⟨p, labelFixedPart row col len, (f p (labelFixedPart row col len) s).1⟩] ∧
      returned f p s tr (fun w => MicroXLS_AddLabelCell w row col label len)
        = (f p (labelFixedPart row col len) s).1) ∧
    ((f p (labelFixedPart row col len) s).1 = MXW_SUCCESS →
      (f p (label.take len) (f p (labelFixedPart row col len) s).2).1 ≠ MXW_SUCCESS →
      issued f p s tr (fun w => MicroXLS_AddLabelCell w row col label len)
        = [⟨p, labelFixedPart row col len, MXW_SUCCESS⟩,
            ⟨p, label.take len,
              (f p (label.take len) (f p (labelFixedPart row col len) s).2).1⟩] ∧
      returned f p s tr (fun w => MicroXLS_AddLabelCell w row col label len)
        = (f p (label.take len) (f p (labelFixedPart row col len) s).2).1) := by
  have h : len % 256 = len := Nat.mod_eq_of_lt (by omega)
  rw [← labelHeader_eq row col len hrow hcol hlen]
  refine ⟨?_, ?_⟩
  · intro h1
    simp [issued, returned, addLabelCell_traced, h1]
  · intro h1 _
    simp [issued, returned, addLabelCell_traced, h1, h]

/-- C12 at the label `AB` in row 1, column 2: on a sink that refuses the first
write with `MXW_IO_ERROR`, and on a sink that refuses only the second. -/
theorem C12_label_write_failures_witness :
    (issued (failNthSink 0 MXW_IO_ERROR) () (0, []) []
        (fun w => MicroXLS_AddLabelCell w 1 2 [65, 66] 2)
        = [⟨(), labelFixedPart 1 2 2,
            (failNthSink 0 MXW_IO_ERROR () (labelFixedPart 1 2 2) (0, [])).1⟩] ∧
      returned (failNthSink 0 MXW_IO_ERROR) () (0, []) []
        (fun w => MicroXLS_AddLabelCell w 1 2 [65, 66] 2)
        = (failNthSink 0 MXW_IO_ERROR () (labelFixedPart 1 2 2) (0, [])).1) ∧
    (issued (failNthSink 1 MXW_IO_ERROR) () (0, []) []
        (fun w => MicroXLS_AddLabelCell w 1 2 [65, 66] 2)
        = [⟨(), labelFixedPart 1 2 2, MXW_SUCCESS⟩,
            ⟨(), List.take 2 [65, 66],
              (failNthSink 1 MXW_IO_ERROR () (List.take 2 [65, 66])
                (failNthSink 1 MXW_IO_ERROR () (labelFixedPart 1 2 2) (0, [])).2).1⟩] ∧
      returned (failNthSink 1 MXW_IO_ERROR) () (0, []) []
        (fun w => MicroXLS_AddLabelCell w 1 2 [65, 66] 2)
        = (failNthSink 1 MXW_IO_ERROR () (List.take 2 [65, 66])
            (failNthSink 1 MXW_IO_ERROR () (labelFixedPart 1 2 2) (0, [])).2).1) :=
  ⟨(C12_label_write_failures (failNthSink 0 MXW_IO_ERROR) () (0, []) [] 1 2 [65, 66] 2
      (by decide) (by decide) (by decide)).1 (by decide),
    (C12_label_write_failures (failNthSink 1 MXW_IO_ERROR) () (0, []) [] 1 2 [65, 66] 2
      (by decide) (by decide) (by decide)).2 (by decide) (by decide)⟩

/-! ## Number of writes per call -/

/-- C15: on a valid writer and for any sink, `MicroXLS_Begin`,
`MicroXLS_SetColumnWidth`, `MicroXLS_AddNumberCell` and `MicroXLS_Finish` each
issue exactly one write, of 8, 8, 19 and 4 bytes; `MicroXLS_AddLabelCell`, with
arguments of their C types and when its first write succeeds, issues exactly
two writes, first the 12 bytes of header and fixed fields and then exactly the
`len` label bytes. -/
theorem C15_write_counts {World Ptr : Type} (f : WriteFunc World Ptr) (p : Ptr)
    (s : World) (tr : List (WriteEvent Ptr)) (wcol width nrow ncol val : Nat)
    (row col : Nat) (label : List Nat) (len : Nat)
    (hrow : row < 65536) (hcol : col < 65536) (hlen : len ≤ 255) (hbuf : len ≤ label.length) :
    (issued f p s tr MicroXLS_Begin).map (fun e => e.data.length) = [8] ∧
    (issued f p s tr (fun w => MicroXLS_SetColumnWidth w wcol width)).map
      (fun e => e.data.length) = [8] ∧
    (issued f p s tr (fun w => MicroXLS_AddNumberCell w nrow ncol val)).map
      (fun e => e.data.length) = [19] ∧
    (issued f p s tr MicroXLS_Finish).map (fun e => e.data.length) = [4] ∧
    ((f p (labelFixedPart row col len) s).1 = MXW_SUCCESS →
      (issued f p s tr (fun w => MicroXLS_AddLabelCell w row col label len)).map
        (fun e => e.data) = [labelFixedPart row col len, label.take len] ∧
      (issued f p s tr (fun w => MicroXLS_AddLabelCell w row col label len)).map
        (fun e => e.data.length) = [12, len]) := by
  have h : len % 256 = len := Nat.mod_eq_of_lt (by omega)
  refine ⟨?_, ?_, ?_, ?_, ?_⟩
  · simp [issued, begin_traced]
  · simp [issued, setColumnWidth_traced, colWidthRecord, bytesOfU16]
  · simp [issued, addNumberCell_traced, numberRecord, bytesOfU16, bytesOfDouble]
  · simp [issued, finish_traced]
  · rw [← labelHeader_eq row col len hrow hcol hlen]
    intro h1
    have hi : issued f p s tr (fun w => MicroXLS_AddLabelCell w row col label len)
        = [⟨p, labelHeader row col len, MXW_SUCCESS⟩,
            ⟨p, label.take len,
              (f p (label.take len) (f p (labelHeader row col len) s).2).1⟩] := by
      simp [issued, addLabelCell_traced, h1, h]
    have h12 : (labelHeader row col len).length = 12 := rfl
    rw [hi]
    simp [h12, hbuf]

/-- C15 at the calls of the test program, on the file-like sink. -/
theorem C15_write_counts_witness :
    (issued appendSink () [] [] MicroXLS_Begin).map (fun e => e.data.length) = [8] ∧
    (issued appendSink () [] [] (fun w => MicroXLS_SetColumnWidth w 2 25600)).map
      (fun e => e.data.length) = [8] ∧
    (issued appendSink () [] [] (fun w => MicroXLS_AddNumberCell w 0 0 0x40C81CCCCCCCCCCD)).map
      (fun e => e.data.length) = [19] ∧
    (issued appendSink () [] [] MicroXLS_Finish).map (fun e => e.data.length) = [4] ∧
    (issued appendSink () [] []
        (fun w => MicroXLS_AddLabelCell w 0 1 [84, 101, 115, 116, 105, 110, 103, 0] 7)).map
      (fun e => e.data)
      = [labelFixedPart 0 1 7, List.take 7 [84, 101, 115, 116, 105, 110, 103, 0]] ∧
    (issued appendSink () [] []
        (fun w => MicroXLS_AddLabelCell w 0 1 [84, 101, 115, 116, 105, 110, 103, 0] 7)).map
      (fun e => e.data.length) = [12, 7] :=
  have h := C15_write_counts appendSink () [] [] 2 25600 0 0 0x40C81CCCCCCCCCCD
    0 1 [84, 101, 115, 116, 105, 110, 103, 0] 7 (by decide) (by decide) (by decide) (by decide)
  ⟨h.1, h.2.1, h.2.2.1, h.2.2.2.1, h.2.2.2.2 (by decide)⟩

/-! ## Empty label and the width of the length field -/

/-- C17: for `len = 0`, `MicroXLS_AddLabelCell` does not skip the second write.
On any sink whose first write of 12 bytes succeeds, it calls the sink a second
time with an empty buffer and returns the result of that call, so it returns
`MXW_SUCCESS` if and only if the sink reports success for the zero-byte write.
With the test program's `WriteToFile`, over an `fwrite` that returns 0 for a
zero size and 1 for the header, the call returns `MXW_IO_ERROR` after the
header has been written. -/
theorem C17_empty_label {World Ptr : Type} (f : WriteFunc World Ptr) (p : Ptr)
    (s : World) (tr : List (WriteEvent Ptr)) (row col : Nat) (label : List Nat)
    (fwrite : List Nat → Nat → Nat → Ptr → World → Nat × World)
    (hrow : row < 65536) (hcol : col < 65536)
    (hzero : ∀ data nmemb ptr st, (fwrite data 0 nmemb ptr st).1 = 0)
    (hheader : (fwrite (labelFixedPart row col 0) 12 1 p s).1 = 1) :
    ((f p (labelFixedPart row col 0) s).1 = MXW_SUCCESS →
      issued f p s tr (fun w => MicroXLS_AddLabelCell w row col label 0)
        = [⟨p, labelFixedPart row col 0, MXW_SUCCESS⟩,
            ⟨p, [], (f p [] (f p (labelFixedPart row col 0) s).2).1⟩] ∧
      (returned f p s tr (fun w => MicroXLS_AddLabelCell w row col label 0) = MXW_SUCCESS ↔
        (f p [] (f p (labelFixedPart row col 0) s).2).1 = MXW_SUCCESS)) ∧
    issued (WriteToFile fwrite) p s tr (fun w => MicroXLS_AddLabelCell w row col label 0)
      = [⟨p, labelFixedPart row col 0, MXW_SUCCESS⟩, ⟨p, [], MXW_IO_ERROR⟩] ∧
    returned (WriteToFile fwrite) p s tr (fun w => MicroXLS_AddLabelCell w row col label 0)
      = MXW_IO_ERROR := by
  have hh := labelHeader_eq row col 0 hrow hcol (by decide)
  have hgen : ∀ g : WriteFunc World Ptr, (g p (labelFixedPart row col 0) s).1 = MXW_SUCCESS →
      issued g p s tr (fun w => MicroXLS_AddLabelCell w row col label 0)
        = [⟨p, labelFixedPart row col 0, MXW_SUCCESS⟩,
            ⟨p, [], (g p [] (g p (labelFixedPart row col 0) s).2).1⟩] ∧
      returned g p s tr (fun w => MicroXLS_AddLabelCell w row col label 0)
        = (g p [] (g p (labelFixedPart row col 0) s).2).1 := by
    intro g h1
    rw [← hh] at h1 ⊢
    simp [issued, returned, addLabelCell_traced, h1]
  have hlen12 : (labelFixedPart row col 0).length = 12 := rfl
  have hw1 : (WriteToFile fwrite p (labelFixedPart row col 0) s).1 = MXW_SUCCESS := by
    simp [WriteToFile, hlen12, hheader]
  have hw2 : ∀ st, (WriteToFile fwrite p [] st).1 = MXW_IO_ERROR := by
    intro st
    simp [WriteToFile, hzero]
  refine ⟨?_, ?_, ?_⟩
  · intro h1
    obtain ⟨hi, hr⟩ := hgen f h1
    exact ⟨hi, by rw [hr]⟩
  · rw [(hgen (WriteToFile fwrite) hw1).1, hw2]
  · rw [(hgen (WriteToFile fwrite) hw1).2, hw2]

/-- C17 at an empty label in row 3, column 4, both sinks being `WriteToFile`
over an `fwrite` with unlimited room. -/
theorem C17_empty_label_witness :
    (issued (WriteToFile fwriteAll) () [] [] (fun w => MicroXLS_AddLabelCell w 3 4 [] 0)
        = [⟨(), labelFixedPart 3 4 0, MXW_SUCCESS⟩,
            ⟨(), [], (WriteToFile fwriteAll () []
              (WriteToFile fwriteAll () (labelFixedPart 3 4 0) []).2).1⟩] ∧
      (returned (WriteToFile fwriteAll) () [] []
          (fun w => MicroXLS_AddLabelCell w 3 4 [] 0) = MXW_SUCCESS ↔
        (WriteToFile fwriteAll () []
          (WriteToFile fwriteAll () (labelFixedPart 3 4 0) []).2).1 = MXW_SUCCESS)) ∧
    issued (WriteToFile fwriteAll) () [] [] (fun w => MicroXLS_AddLabelCell w 3 4 [] 0)
      = [⟨(), labelFixedPart 3 4 0, MXW_SUCCESS⟩, ⟨(), [], MXW_IO_ERROR⟩] ∧
    returned (WriteToFile fwriteAll) () [] [] (fun w => MicroXLS_AddLabelCell w 3 4 [] 0)
      = MXW_IO_ERROR :=
  have h := C17_empty_label (WriteToFile fwriteAll) () [] [] 3 4 [] fwriteAll
    (by decide) (by decide) (fun _ _ _ _ => by simp [fwriteAll]) (by decide)
  ⟨h.1 (by decide), h.2⟩

/-- C18: the length of a label record never wraps. For every `len` in 0..255
and any sink, the first write of `MicroXLS_AddLabelCell` has 12 bytes; its
16-bit length field holds the mathematical value `len + 12 - 4`, which is at
most 263, so the conversion to `uint16_t` loses nothing; the high byte of the
field is 0 or 1; and the byte at offset 11 equals `len`. -/
theorem C18_length_no_wrap {World Ptr : Type} (f : WriteFunc World Ptr) (p : Ptr)
    (s : World) (tr : List (WriteEvent Ptr)) (row col : Nat) (label : List Nat) (len : Nat)
    (hlen : len ≤ 255) :
    ∃ e rest, issued f p s tr (fun w => MicroXLS_AddLabelCell w row col label len) = e :: rest ∧
      e.data.length = 12 ∧
      le16At e.data 2 = len + 12 - 4 ∧
      le16At e.data 2 ≤ 263 ∧
      e.data.getD 3 0 ≤ 1 ∧
      e.data.getD 11 0 = len := by
  have h : len % 256 = len := Nat.mod_eq_of_lt (by omega)
  have hdata : (labelHeader row col len).length = 12 ∧
      le16At (labelHeader row col len) 2 = len + 12 - 4 ∧
      le16At (labelHeader row col len) 2 ≤ 263 ∧
      (labelHeader row col len).getD 3 0 ≤ 1 ∧
      (labelHeader row col len).getD 11 0 = len := by
    simp only [labelHeader, bytesOfU16, bytesOfU8, le16At, h]
    simp
    omega
  by_cases h1 : (f p (labelHeader row col len) s).1 = MXW_SUCCESS
  · refine ⟨⟨p, labelHeader row col len, MXW_SUCCESS⟩,
      [⟨p, label.take (len % 256),
        (f p (label.take (len % 256)) (f p (labelHeader row col len) s).2).1⟩], ?_, hdata⟩
    simp only [issued, addLabelCell_traced, h1, ne_eq, not_true_eq_false, if_false,
      List.drop_left]
  · refine ⟨⟨p, labelHeader row col len, (f p (labelHeader row col len) s).1⟩, [], ?_, hdata⟩
    simp only [issued, addLabelCell_traced, h1, ne_eq, not_false_eq_true, if_true,
      List.drop_left]

/-- C18 at the longest label, 255 bytes, where the length field is 263. -/
theorem C18_length_no_wrap_witness :
    ∃ e rest, issued appendSink () [] []
        (fun w => MicroXLS_AddLabelCell w 0 0 (List.replicate 255 65) 255) = e :: rest ∧
      e.data.length = 12 ∧
      le16At e.data 2 = 255 + 12 - 4 ∧
      le16At e.data 2 ≤ 263 ∧
      e.data.getD 3 0 ≤ 1 ∧
      e.data.getD 11 0 = 255 :=
  C18_length_no_wrap appendSink () [] [] 0 0 (List.replicate 255 65) 255 (by decide)

/-! ## Sequences of calls -/

theorem run_traced_log_eq {World Ptr : Type} (f : WriteFunc World Ptr) (p : Ptr) (s : World)
    (tr : List (WriteEvent Ptr)) (c : Call) :
    (c.run (tracedWriter f p) (s, tr)).2.2 = tr ++ issued f p s tr c.run := by
  obtain ⟨e, es, hlog, _⟩ := run_traced_log f p s tr c
  simp [issued, hlog]

theorem bytesOf_append {Ptr : Type} (xs ys : List (WriteEvent Ptr)) :
    bytesOf (xs ++ ys) = bytesOf xs ++ bytesOf ys := by
  simp [bytesOf]

theorem emitted_eq_record {World Ptr : Type} (f : WriteFunc World Ptr) (hf : AcceptsAll f)
    (p : Ptr) (s : World) (tr : List (WriteEvent Ptr)) (c : Call) :
    emitted f p s tr c.run = c.record := by
  cases c with
  | Begin => exact (emitted_begin f p s tr).trans (emitted_begin appendSink () [] []).symm
  | Finish => exact (emitted_finish f p s tr).trans (emitted_finish appendSink () [] []).symm
  | SetColumnWidth col width =>
    exact (emitted_setColumnWidth f p s tr col width).trans
      (emitted_setColumnWidth appendSink () [] [] col width).symm
  | AddNumberCell row col val =>
    exact (emitted_addNumberCell f p s tr row col val).trans
      (emitted_addNumberCell appendSink () [] [] row col val).symm
  | AddLabelCell row col label len =>
    exact (emitted_addLabelCell f hf p s tr row col label len).trans
      (emitted_addLabelCell appendSink acceptsAll_appendSink () [] [] row col label len).symm

theorem returned_accept {World Ptr : Type} (f : WriteFunc World Ptr) (hf : AcceptsAll f)
    (p : Ptr) (s : World) (tr : List (WriteEvent Ptr)) (c : Call) :
    returned f p s tr c.run = MXW_SUCCESS := by
  cases c with
  | Begin => simp [returned, Call.run, begin_traced, hf p _ _]
  | Finish => simp [returned, Call.run, finish_traced, hf p _ _]
  | SetColumnWidth col width => simp [returned, Call.run, setColumnWidth_traced, hf p _ _]
  | AddNumberCell row col val => simp [returned, Call.run, addNumberCell_traced, hf p _ _]
  | AddLabelCell row col label len =>
    simp [returned, Call.run, addLabelCell_traced_accept f hf]

theorem runCalls_accept {World Ptr : Type} (f : WriteFunc World Ptr) (hf : AcceptsAll f)
    (p : Ptr) (cs : List Call) :
    ∀ (s : World) (tr : List (WriteEvent Ptr)),
      (runCalls (tracedWriter f p) cs (s, tr)).1 = List.replicate cs.length MXW_SUCCESS ∧
      bytesOf (runCalls (tracedWriter f p) cs (s, tr)).2.2
        = bytesOf tr ++ (cs.map Call.record).flatten := by
  induction cs with
  | nil =>
    intro s tr
    simp [runCalls]
  | cons c cs ih =>
    intro s tr
    have hr : (c.run (tracedWriter f p) (s, tr)).1 = MXW_SUCCESS := returned_accept f hf p s tr c
    have hl := run_traced_log_eq f p s tr c
    have he : bytesOf (issued f p s tr c.run) = c.record := emitted_eq_record f hf p s tr c
    have hunf : runCalls (tracedWriter f p) (c :: cs) (s, tr)
        = ((c.run (tracedWriter f p) (s, tr)).1
            :: (runCalls (tracedWriter f p) cs (c.run (tracedWriter f p) (s, tr)).2).1,
          (runCalls (tracedWriter f p) cs (c.run (tracedWriter f p) (s, tr)).2).2) := rfl
    rw [hunf]
    rcases hrun : c.run (tracedWriter f p) (s, tr) with ⟨r, s1, tr1⟩
    rw [hrun] at hr hl
    simp only at hr hl
    obtain ⟨ih1, ih2⟩ := ih s1 tr1
    refine ⟨?_, ?_⟩
    · simp only [ih1, hr, List.length_cons, List.replicate_succ]
    · show bytesOf (runCalls (tracedWriter f p) cs (s1, tr1)).2.2 = _
      rw [ih2, hl, bytesOf_append, he]
      simp only [List.map_cons, List.flatten_cons, List.append_assoc]

/-- C14: no call order is enforced. For every finite sequence of the five
operations, in any order and with any repetition or omission, on a valid
writer whose sink accepts all writes, every call returns `MXW_SUCCESS` and the
byte stream of the sink grows by exactly the concatenation, in call order, of
the record each call emits on its own from its arguments. -/
theorem C14_any_order {World Ptr : Type} (f : WriteFunc World Ptr) (hf : AcceptsAll f)
    (p : Ptr) (s : World) (tr : List (WriteEvent Ptr)) (cs : List Call) :
    (runCalls (tracedWriter f p) cs (s, tr)).1 = List.replicate cs.length MXW_SUCCESS ∧
    bytesOf (runCalls (tracedWriter f p) cs (s, tr)).2.2
      = bytesOf tr ++ (cs.map Call.record).flatten :=
  runCalls_accept f hf p cs s tr

/-- C14 at a sequence with a cell before `Begin`, a call after `Finish` and two
records for the cell at row 0, column 0. -/
theorem C14_any_order_witness :
    (runCalls (tracedWriter appendSink ())
        [Call.AddNumberCell 0 0 1, Call.Begin, Call.AddLabelCell 0 0 [65] 1, Call.Finish,
          Call.SetColumnWidth 1 2] ([], [])).1
      = List.replicate
        [Call.AddNumberCell 0 0 1, Call.Begin, Call.AddLabelCell 0 0 [65] 1, Call.Finish,
          Call.SetColumnWidth 1 2].length MXW_SUCCESS ∧
    bytesOf (runCalls (tracedWriter appendSink ())
        [Call.AddNumberCell 0 0 1, Call.Begin, Call.AddLabelCell 0 0 [65] 1, Call.Finish,
          Call.SetColumnWidth 1 2] ([], [])).2.2
      = bytesOf ([] : List (WriteEvent Unit)) ++
        ([Call.AddNumberCell 0 0 1, Call.Begin, Call.AddLabelCell 0 0 [65] 1, Call.Finish,
          Call.SetColumnWidth 1 2].map Call.record).flatten :=
  C14_any_order appendSink acceptsAll_appendSink () [] []
    [Call.AddNumberCell 0 0 1, Call.Begin, Call.AddLabelCell 0 0 [65] 1, Call.Finish,
      Call.SetColumnWidth 1 2]

/-! ## Two writers over independent sinks -/

theorem write_onFst {A B Ptr : Type} (f : WriteFunc A Ptr) (p : Ptr) (buf : List Nat) (n : Nat)
    (k : A → MicroXLSWriterResult × A) (k2 : A × B → MicroXLSWriterResult × (A × B))
    (hk : ∀ x y, k2 (x, y) = ((k x).1, ((k x).2, y))) (x : A) (y : B) :
    MXW_WRITE (onFst f) p buf n k2 (x, y)
      = ((MXW_WRITE f p buf n k x).1, ((MXW_WRITE f p buf n k x).2, y)) := by
  unfold MXW_WRITE onFst
  by_cases h : (f p (List.take n buf) x).1 = MXW_SUCCESS
  · simp [h, hk]
  · simp [h]

theorem write_onSnd {A B Ptr : Type} (f : WriteFunc B Ptr) (p : Ptr) (buf : List Nat) (n : Nat)
    (k : B → MicroXLSWriterResult × B) (k2 : A × B → MicroXLSWriterResult × (A × B))
    (hk : ∀ x y, k2 (x, y) = ((k y).1, (x, (k y).2))) (x : A) (y : B) :
    MXW_WRITE (onSnd f) p buf n k2 (x, y)
      = ((MXW_WRITE f p buf n k y).1, (x, (MXW_WRITE f p buf n k y).2)) := by
  unfold MXW_WRITE onSnd
  by_cases h : (f p (List.take n buf) y).1 = MXW_SUCCESS
  · simp [h, hk]
  · simp [h]

/-- A call on a writer over the first sink is the same call on that sink
alone, with the second sink left as it was. -/
theorem run_onFst {A B Ptr : Type} (f : WriteFunc A Ptr) (p : Ptr) (c : Call) (x : A) (y : B) :
    c.run (some ⟨some (onFst f), p⟩) (x, y)
      = ((c.run (some ⟨some f, p⟩) x).1, ((c.run (some ⟨some f, p⟩) x).2, y)) := by
  cases c with
  | Begin =>
    exact write_onFst f p _ _ (fun s => (MXW_SUCCESS, s)) (fun s => (MXW_SUCCESS, s))
      (fun _ _ => rfl) x y
  | Finish =>
    exact write_onFst f p _ _ (fun s => (MXW_SUCCESS, s)) (fun s => (MXW_SUCCESS, s))
      (fun _ _ => rfl) x y
  | SetColumnWidth col width =>
    exact write_onFst f p _ _ (fun s => (MXW_SUCCESS, s)) (fun s => (MXW_SUCCESS, s))
      (fun _ _ => rfl) x y
  | AddNumberCell row col val =>
    exact write_onFst f p _ _ (fun s => (MXW_SUCCESS, s)) (fun s => (MXW_SUCCESS, s))
      (fun _ _ => rfl) x y
  | AddLabelCell row col label len =>
    exact write_onFst f p _ _
      (MXW_WRITE f p label (len % 256) (fun s => (MXW_SUCCESS, s)))
      (MXW_WRITE (onFst f) p label (len % 256) (fun s => (MXW_SUCCESS, s)))
      (fun x1 y1 => write_onFst f p _ _ (fun s => (MXW_SUCCESS, s)) (fun s => (MXW_SUCCESS, s))
        (fun _ _ => rfl) x1 y1) x y

/-- A call on a writer over the second sink is the same call on that sink
alone, with the first sink left as it was. -/
theorem run_onSnd {A B Ptr : Type} (f : WriteFunc B Ptr) (p : Ptr) (c : Call) (x : A) (y : B) :
    c.run (some ⟨some (onSnd f), p⟩) (x, y)
      = ((c.run (some ⟨some f, p⟩) y).1, (x, (c.run (some ⟨some f, p⟩) y).2)) := by
  cases c with
  | Begin =>
    exact write_onSnd f p _ _ (fun s => (MXW_SUCCESS, s)) (fun s => (MXW_SUCCESS, s))
      (fun _ _ => rfl) x y
  | Finish =>
    exact write_onSnd f p _ _ (fun s => (MXW_SUCCESS, s)) (fun s => (MXW_SUCCESS, s))
      (fun _ _ => rfl) x y
  | SetColumnWidth col width =>
    exact write_onSnd f p _ _ (fun s => (MXW_SUCCESS, s)) (fun s => (MXW_SUCCESS, s))
      (fun _ _ => rfl) x y
  | AddNumberCell row col val =>
    exact write_onSnd f p _ _ (fun s => (MXW_SUCCESS, s)) (fun s => (MXW_SUCCESS, s))
      (fun _ _ => rfl) x y
  | AddLabelCell row col label len =>
    exact write_onSnd f p _ _
      (MXW_WRITE f p label (len % 256) (fun s => (MXW_SUCCESS, s)))
      (MXW_WRITE (onSnd f) p label (len % 256) (fun s => (MXW_SUCCESS, s)))
      (fun x1 y1 => write_onSnd f p _ _ (fun s => (MXW_SUCCESS, s)) (fun s => (MXW_SUCCESS, s))
        (fun _ _ => rfl) x1 y1) x y

theorem selectOf_cons_same {α : Type} (b : Bool) (a : α) (xs : List (Bool × α)) :
    selectOf b ((b, a) :: xs) = a :: selectOf b xs := by
  simp [selectOf]

theorem selectOf_cons_other {α : Type} (b : Bool) (a : α) (xs : List (Bool × α)) :
    selectOf (!b) ((b, a) :: xs) = selectOf (!b) xs := by
  cases b <;> simp [selectOf]

theorem runInterleaved_split {A B Ptr : Type} (f1 : WriteFunc A Ptr) (f2 : WriteFunc B Ptr)
    (p1 p2 : Ptr) (prog : List (Bool × Call)) :
    ∀ (x : A) (y : B),
      (runInterleaved (some ⟨some (onFst f1), p1⟩) (some ⟨some (onSnd f2), p2⟩) prog (x, y)).2
        = ((runCalls (some ⟨some f1, p1⟩) (selectOf true prog) x).2,
            (runCalls (some ⟨some f2, p2⟩) (selectOf false prog) y).2) ∧
      selectOf true
          (runInterleaved (some ⟨some (onFst f1), p1⟩) (some ⟨some (onSnd f2), p2⟩) prog (x, y)).1
        = (runCalls (some ⟨some f1, p1⟩) (selectOf true prog) x).1 ∧
      selectOf false
          (runInterleaved (some ⟨some (onFst f1), p1⟩) (some ⟨some (onSnd f2), p2⟩) prog (x, y)).1
        = (runCalls (some ⟨some f2, p2⟩) (selectOf false prog) y).1 := by
  induction prog with
  | nil =>
    intro x y
    exact ⟨rfl, rfl, rfl⟩
  | cons step steps ih =>
    intro x y
    obtain ⟨b, c⟩ := step
    cases b with
    | true =>
      have hstep := run_onFst (B := B) f1 p1 c x y
      obtain ⟨ih1, ih2, ih3⟩ := ih (c.run (some ⟨some f1, p1⟩) x).2 y
      have hunf : runInterleaved (some ⟨some (onFst f1), p1⟩) (some ⟨some (onSnd f2), p2⟩)
          ((true, c) :: steps) (x, y)
          = ((true, (c.run (some ⟨some (onFst f1), p1⟩) (x, y)).1)
              :: (runInterleaved (some ⟨some (onFst f1), p1⟩) (some ⟨some (onSnd f2), p2⟩) steps
                  (c.run (some ⟨some (onFst f1), p1⟩) (x, y)).2).1,
            (runInterleaved (some ⟨some (onFst f1), p1⟩) (some ⟨some (onSnd f2), p2⟩) steps
                  (c.run (some ⟨some (onFst f1), p1⟩) (x, y)).2).2) := rfl
      have hsel : selectOf true ((true, c) :: steps) = c :: selectOf true steps :=
        selectOf_cons_same true c steps
      have hoth : selectOf false ((true, c) :: steps) = selectOf false steps :=
        selectOf_cons_other true c steps
      rw [hunf, hstep, hsel, hoth]
      refine ⟨?_, ?_, ?_⟩
      · rw [ih1]
        rfl
      · rw [selectOf_cons_same, ih2]
        rfl
      · rw [show selectOf false ((true, (c.run (some ⟨some f1, p1⟩) x).1) :: _) = _ from
          selectOf_cons_other true _ _]
        exact ih3
    | false =>
      have hstep := run_onSnd (A := A) f2 p2 c x y
      obtain ⟨ih1, ih2, ih3⟩ := ih x (c.run (some ⟨some f2, p2⟩) y).2
      have hunf : runInterleaved (some ⟨some (onFst f1), p1⟩) (some ⟨some (onSnd f2), p2⟩)
          ((false, c) :: steps) (x, y)
          = ((false, (c.run (some ⟨some (onSnd f2), p2⟩) (x, y)).1)
              :: (runInterleaved (some ⟨some (onFst f1), p1⟩) (some ⟨some (onSnd f2), p2⟩) steps
                  (c.run (some ⟨some (onSnd f2), p2⟩) (x, y)).2).1,
            (runInterleaved (some ⟨some (onFst f1), p1⟩) (some ⟨some (onSnd f2), p2⟩) steps
                  (c.run (some ⟨some (onSnd f2), p2⟩) (x, y)).2).2) := rfl
      have hsel : selectOf false ((false, c) :: steps) = c :: selectOf false steps :=
        selectOf_cons_same false c steps
      have hoth : selectOf true ((false, c) :: steps) = selectOf true steps :=
        selectOf_cons_other false c steps
      rw [hunf, hstep, hsel, hoth]
      refine ⟨?_, ?_, ?_⟩
      · rw [ih1]
        rfl
      · rw [show selectOf true ((false, (c.run (some ⟨some f2, p2⟩) y).1) :: _) = _ from
          selectOf_cons_other false _ _]
        exact ih2
      · rw [selectOf_cons_same, ih3]
        rfl

/-- C13: non-interference of writers. For two writers over two independent
sinks and any interleaving of calls on them, the state and the log of each
sink at the end (its byte stream with the result code of every write), and the
result codes of the calls on each writer, are those of that writer's calls
run alone in the same relative order; and a single call on one writer leaves
the other sink, log included, as it was. -/
theorem C13_non_interference {A B Ptr : Type} (g1 : WriteFunc A Ptr) (g2 : WriteFunc B Ptr)
    (p1 p2 : Ptr) (a : A) (b : B) (tr1 tr2 : List (WriteEvent Ptr))
    (prog : List (Bool × Call)) :
    (runInterleaved (firstWriter g1 p1) (secondWriter g2 p2) prog ((a, tr1), (b, tr2))).2.1
      = (runCalls (tracedWriter g1 p1) (selectOf true prog) (a, tr1)).2 ∧
    (runInterleaved (firstWriter g1 p1) (secondWriter g2 p2) prog ((a, tr1), (b, tr2))).2.2
      = (runCalls (tracedWriter g2 p2) (selectOf false prog) (b, tr2)).2 ∧
    selectOf true
        (runInterleaved (firstWriter g1 p1) (secondWriter g2 p2) prog ((a, tr1), (b, tr2))).1
      = (runCalls (tracedWriter g1 p1) (selectOf true prog) (a, tr1)).1 ∧
    selectOf false
        (runInterleaved (firstWriter g1 p1) (secondWriter g2 p2) prog ((a, tr1), (b, tr2))).1
      = (runCalls (tracedWriter g2 p2) (selectOf false prog) (b, tr2)).1 ∧
    (∀ (c : Call) x y, (c.run (firstWriter (B := B) g1 p1) (x, y)).2.2 = y) ∧
    (∀ (c : Call) x y, (c.run (secondWriter (A := A) g2 p2) (x, y)).2.1 = x) := by
  obtain ⟨h1, h2, h3⟩ := runInterleaved_split (traced g1) (traced g2) p1 p2 prog (a, tr1) (b, tr2)
  refine ⟨congrArg Prod.fst h1, congrArg Prod.snd h1, h2, h3, ?_, ?_⟩
  · intro c x y
    exact congrArg (fun r => r.2.2) (run_onFst (traced g1) p1 c x y)
  · intro c x y
    exact congrArg (fun r => r.2.1) (run_onSnd (traced g2) p2 c x y)

/-- C13 at the test program: its ten calls on `w1` and `w2`, both writers using
`WriteToFile` over files with unlimited room. -/
theorem C13_non_interference_witness :
    (runInterleaved (firstWriter (WriteToFile fwriteAll) ()) (secondWriter (WriteToFile fwriteAll) ())
        testProgram (([], []), ([], []))).2.1
      = (runCalls (tracedWriter (WriteToFile fwriteAll) ()) (selectOf true testProgram)
          ([], [])).2 ∧
    (runInterleaved (firstWriter (WriteToFile fwriteAll) ()) (secondWriter (WriteToFile fwriteAll) ())
        testProgram (([], []), ([], []))).2.2
      = (runCalls (tracedWriter (WriteToFile fwriteAll) ()) (selectOf false testProgram)
          ([], [])).2 ∧
    selectOf true
        (runInterleaved (firstWriter (WriteToFile fwriteAll) ())
          (secondWriter (WriteToFile fwriteAll) ()) testProgram (([], []), ([], []))).1
      = (runCalls (tracedWriter (WriteToFile fwriteAll) ()) (selectOf true testProgram)
          ([], [])).1 ∧
    selectOf false
        (runInterleaved (firstWriter (WriteToFile fwriteAll) ())
          (secondWriter (WriteToFile fwriteAll) ()) testProgram (([], []), ([], []))).1
      = (runCalls (tracedWriter (WriteToFile fwriteAll) ()) (selectOf false testProgram)
          ([], [])).1 ∧
    (∀ (c : Call) (x y : List Nat × List (WriteEvent Unit)),
      (c.run (firstWriter (B := List Nat) (WriteToFile fwriteAll) ()) (x, y)).2.2 = y) ∧
    (∀ (c : Call) (x y : List Nat × List (WriteEvent Unit)),
      (c.run (secondWriter (A := List Nat) (WriteToFile fwriteAll) ()) (x, y)).2.1 = x) :=
  C13_non_interference (WriteToFile fwriteAll) (WriteToFile fwriteAll) () () [] [] [] []
    testProgram

/-! ## Reading the stream back -/

theorem record_begin : Call.Begin.record = [9, 0, 4, 0, 2, 0, 16, 0] :=
  emitted_begin appendSink () [] []

theorem record_finish : Call.Finish.record = [10, 0, 0, 0] :=
  emitted_finish appendSink () [] []

theorem record_setColumnWidth (col width : Nat) :
    (Call.SetColumnWidth col width).record = colWidthRecord col width :=
  emitted_setColumnWidth appendSink () [] [] col width

theorem record_addNumberCell (row col val : Nat) :
    (Call.AddNumberCell row col val).record = numberRecord row col val :=
  emitted_addNumberCell appendSink () [] [] row col val

theorem record_addLabelCell (row col : Nat) (label : List Nat) (len : Nat) :
    (Call.AddLabelCell row col label len).record
      = labelHeader row col len ++ label.take (len % 256) :=
  emitted_addLabelCell appendSink acceptsAll_appendSink () [] [] row col label len

theorem record_framed (c : Call) (hc : c.Canonical) :
    4 ≤ c.record.length ∧ le16At c.record 2 = c.record.length - 4 := by
  cases c with
  | Begin => rw [record_begin]; exact ⟨by decide, by decide⟩
  | Finish => rw [record_finish]; exact ⟨by decide, by decide⟩
  | SetColumnWidth col width =>
    rw [record_setColumnWidth]
    exact ⟨by simp [colWidthRecord, bytesOfU16], by simp [colWidthRecord, bytesOfU16, le16At]⟩
  | AddNumberCell row col val =>
    rw [record_addNumberCell]
    exact ⟨by simp [numberRecord, bytesOfU16, bytesOfDouble],
      by simp [numberRecord, bytesOfU16, bytesOfDouble, le16At]⟩
  | AddLabelCell row col label len =>
    obtain ⟨hrow, hcol, hlen, hbuf⟩ := hc
    have h : len % 256 = len := Nat.mod_eq_of_lt hlen
    have ht : label.take len = label := by rw [← hbuf]; exact List.take_length label
    rw [record_addLabelCell, h, ht, labelHeader_eq row col len hrow hcol (by omega)]
    refine ⟨by simp [labelFixedPart], ?_⟩
    simp [labelFixedPart, le16At, hbuf]
    omega

theorem decode_record (c : Call) (hc : c.Canonical) : decodeRecord c.record = some c := by
  cases c with
  | Begin => rw [record_begin]; decide
  | Finish => rw [record_finish]; decide
  | SetColumnWidth col width =>
    obtain ⟨hcol, hwidth⟩ := hc
    have h1 : col % 256 = col := Nat.mod_eq_of_lt hcol
    have h2 : width % 65536 = width := Nat.mod_eq_of_lt hwidth
    rw [record_setColumnWidth]
    simp only [colWidthRecord, bytesOfU16, h1, h2]
    simp [decodeRecord, le16At]
    omega
  | AddNumberCell row col val =>
    obtain ⟨hrow, hcol, hval⟩ := hc
    have hd := decode_numberRecord row col val hrow hcol hval
    rw [record_addNumberCell]
    have htag : le16At (numberRecord row col val) 0 = 3 := by
      simp [numberRecord, le16At]
    simp only [decodeNumberCell, Prod.mk.injEq] at hd
    simp [decodeRecord, htag, hd.1, hd.2.1, hd.2.2]
  | AddLabelCell row col label len =>
    obtain ⟨hrow, hcol, hlen, hbuf⟩ := hc
    have h : len % 256 = len := Nat.mod_eq_of_lt hlen
    have ht : label.take len = label := by rw [← hbuf]; exact List.take_length label
    rw [record_addLabelCell, h, ht, labelHeader_eq row col len hrow hcol (by omega)]
    simp [decodeRecord, labelFixedPart, le16At]
    omega

theorem le16At_append (r rest : List Nat) (h : 4 ≤ r.length) :
    le16At (r ++ rest) 2 = le16At r 2 := by
  unfold le16At
  rw [List.getD_append r rest 0 2 (by omega), List.getD_append r rest 0 (2 + 1) (by omega)]

theorem splitRecords_records (cs : List Call) (hcs : ∀ c ∈ cs, c.Canonical) :
    ∀ fuel, cs.length ≤ fuel →
      splitRecords fuel (cs.map Call.record).flatten = cs.map Call.record := by
  induction cs with
  | nil =>
    intro fuel _
    cases fuel with
    | zero => rfl
    | succ n => simp [splitRecords]
  | cons c cs ih =>
    intro fuel hfuel
    cases fuel with
    | zero => simp at hfuel
    | succ n =>
      obtain ⟨h4, hfield⟩ := record_framed c (hcs c (List.mem_cons_self c cs))
      have hrest := ih (fun d hd => hcs d (List.mem_cons_of_mem c hd)) n
        (by simpa using hfuel)
      have hlen : 4 + le16At (c.record ++ (cs.map Call.record).flatten) 2 = c.record.length := by
        rw [le16At_append _ _ h4, hfield]
        omega
      have hnot : ¬ (c.record ++ (cs.map Call.record).flatten).length < 4 := by
        rw [List.length_append]
        omega
      simp only [List.map_cons, List.flatten_cons, splitRecords, hnot, if_false, hlen,
        List.take_left, List.drop_left, hrest]

theorem length_le_stream (cs : List Call) (hcs : ∀ c ∈ cs, c.Canonical) :
    cs.length ≤ (cs.map Call.record).flatten.length := by
  induction cs with
  | nil => simp
  | cons c cs ih =>
    have h4 := (record_framed c (hcs c (List.mem_cons_self c cs))).1
    have hrest := ih (fun d hd => hcs d (List.mem_cons_of_mem c hd))
    simp only [List.map_cons, List.flatten_cons, List.length_append, List.length_cons]
    omega

theorem streamOf_accept {World Ptr : Type} (f : WriteFunc World Ptr) (hf : AcceptsAll f)
    (p : Ptr) (s : World) (cs : List Call) :
    streamOf f p s cs = (cs.map Call.record).flatten := by
  rw [streamOf, (runCalls_accept f hf p cs s []).2]
  simp [bytesOf]

theorem readRecords_records (cs : List Call) (hcs : ∀ c ∈ cs, c.Canonical) :
    readRecords (cs.map Call.record).flatten = cs.map Call.record :=
  splitRecords_records cs hcs _ (length_le_stream cs hcs)

theorem decode_records (cs : List Call) (hcs : ∀ c ∈ cs, c.Canonical) :
    (cs.map Call.record).map decodeRecord = cs.map some := by
  induction cs with
  | nil => rfl
  | cons c cs ih =>
    simp only [List.map_cons, decode_record c (hcs c (List.mem_cons_self c cs)),
      ih (fun d hd => hcs d (List.mem_cons_of_mem c hd))]

/-- C16: unique decodability of the output stream. Over a sink that accepts
all writes, for sequences of calls with arguments of their C types and labels
given by exactly their `len` bytes: the reader that repeatedly takes a 2-byte
tag and a 2-byte little-endian length and skips that many bytes splits the
stream exactly into the records of the calls; each record read back by the
record table gives its call with all its arguments; and so two sequences of
calls with the same stream are the same sequence. -/
theorem C16_unique_decoding {World Ptr : Type} (f : WriteFunc World Ptr) (hf : AcceptsAll f)
    (p : Ptr) (s : World) (cs1 cs2 : List Call)
    (h1 : ∀ c ∈ cs1, c.Canonical) (h2 : ∀ c ∈ cs2, c.Canonical) :
    readRecords (streamOf f p s cs1) = cs1.map Call.record ∧
    (readRecords (streamOf f p s cs1)).map decodeRecord = cs1.map some ∧
    (streamOf f p s cs1 = streamOf f p s cs2 → cs1 = cs2) := by
  have hr1 : readRecords (streamOf f p s cs1) = cs1.map Call.record := by
    rw [streamOf_accept f hf]
    exact readRecords_records cs1 h1
  have hr2 : readRecords (streamOf f p s cs2) = cs2.map Call.record := by
    rw [streamOf_accept f hf]
    exact readRecords_records cs2 h2
  refine ⟨hr1, ?_, ?_⟩
  · rw [hr1]
    exact decode_records cs1 h1
  · intro heq
    have hd : (readRecords (streamOf f p s cs1)).map decodeRecord
        = (readRecords (streamOf f p s cs2)).map decodeRecord := by rw [heq]
    rw [hr1, hr2, decode_records cs1 h1, decode_records cs2 h2] at hd
    exact List.map_injective_iff.mpr (Option.some_injective Call) hd

/-- C16 at five calls as the test program makes them on its first writer,
against a shorter sequence with another label cell. -/
theorem C16_unique_decoding_witness :
    readRecords (streamOf appendSink () []
        [Call.Begin, Call.SetColumnWidth 2 25600, Call.AddNumberCell 0 0 0x40C81CCCCCCCCCCD,
          Call.AddLabelCell 0 1 [84, 101, 115, 116, 105, 110, 103] 7, Call.Finish])
      = ([Call.Begin, Call.SetColumnWidth 2 25600, Call.AddNumberCell 0 0 0x40C81CCCCCCCCCCD,
          Call.AddLabelCell 0 1 [84, 101, 115, 116, 105, 110, 103] 7, Call.Finish]).map Call.record ∧
    (readRecords (streamOf appendSink () []
        [Call.Begin, Call.SetColumnWidth 2 25600, Call.AddNumberCell 0 0 0x40C81CCCCCCCCCCD,
          Call.AddLabelCell 0 1 [84, 101, 115, 116, 105, 110, 103] 7, Call.Finish])).map decodeRecord
      = ([Call.Begin, Call.SetColumnWidth 2 25600, Call.AddNumberCell 0 0 0x40C81CCCCCCCCCCD,
          Call.AddLabelCell 0 1 [84, 101, 115, 116, 105, 110, 103] 7, Call.Finish]).map some ∧
    (streamOf appendSink () []
        [Call.Begin, Call.SetColumnWidth 2 25600, Call.AddNumberCell 0 0 0x40C81CCCCCCCCCCD,
          Call.AddLabelCell 0 1 [84, 101, 115, 116, 105, 110, 103] 7, Call.Finish]
        = streamOf appendSink () [] [Call.Begin, Call.AddLabelCell 1 2 [65, 0, 66] 3, Call.Finish] →
      ([Call.Begin, Call.SetColumnWidth 2 25600, Call.AddNumberCell 0 0 0x40C81CCCCCCCCCCD,
          Call.AddLabelCell 0 1 [84, 101, 115, 116, 105, 110, 103] 7, Call.Finish] : List Call)
        = [Call.Begin, Call.AddLabelCell 1 2 [65, 0, 66] 3, Call.Finish]) :=
  C16_unique_decoding appendSink acceptsAll_appendSink () []
    [Call.Begin, Call.SetColumnWidth 2 25600, Call.AddNumberCell 0 0 0x40C81CCCCCCCCCCD,
          Call.AddLabelCell 0 1 [84, 101, 115, 116, 105, 110, 103] 7, Call.Finish]
    [Call.Begin, Call.AddLabelCell 1 2 [65, 0, 66] 3, Call.Finish]
    (by decide) (by decide)

end MicroXLS
